import Mathlib

/-!
Verification of the command-argument binder and dispatcher of
`mailru-im-command-bot` (`mailru_im_command_bot/command_bot.py` and
`mailru_im_command_bot/types.py`).

The Python code is shallowly embedded: parameters, argument kinds and
values become inductive types; `_cast_arg`, `_check_args`, `_gen_kwargs`,
the help formatters and the dispatch wrappers become executable Lean
functions that mirror the source line by line.  Python dicts are
modelled as association lists with last-entry-wins lookup (`dget`),
which matches the semantics of `dict` literals, comprehensions and
`{**a, **b}` merges used by the source.
-/

namespace CommandBot

/-! ## Character and string utilities (models of the Python primitives) -/

/-- Model of `str.lower` restricted to ASCII, as used on tokens. -/
def charToLower (c : Char) : Char :=
  if 'A' ≤ c ∧ c ≤ 'Z' then Char.ofNat (c.toNat + 32) else c

/-- Model of `str.lower` on a whole string. -/
def strToLower (s : String) : String :=
  String.mk (s.data.map charToLower)

/-- Split a character list at the first occurrence of `c`
(model of `str.split(c, 1)`): `none` when `c` does not occur. -/
def splitFirst (c : Char) : List Char → Option (List Char × List Char)
  | [] => none
  | x :: xs =>
    if x = c then some ([], xs)
    else (splitFirst c xs).map (fun p => (x :: p.1, p.2))

/-- Split a character list on every occurrence of `c`, keeping empty
pieces (model of `str.split(c)`). -/
def splitOnChar (c : Char) : List Char → List (List Char)
  | [] => [[]]
  | x :: xs =>
    match splitOnChar c xs with
    | [] => [[]]
    | h :: t => if x = c then [] :: h :: t else (x :: h) :: t

/-- Whitespace tokenizer: model of `str.split()` (no argument), which
splits on runs of whitespace and never yields empty tokens.
`cur` accumulates the current token in reverse. -/
def wsTokensAux (cur : List Char) : List Char → List (List Char)
  | [] => if cur.isEmpty then [] else [cur.reverse]
  | c :: cs =>
    if c.isWhitespace then
      if cur.isEmpty then wsTokensAux [] cs
      else cur.reverse :: wsTokensAux [] cs
    else wsTokensAux (c :: cur) cs

/-- Tokens of a message string, as Python `msg.split()` produces them. -/
def wsTokens (s : String) : List String :=
  (wsTokensAux [] s.data).map String.mk

/-- Model of `str.join` / `"sep".join(list)`. -/
def joinWith (sep : String) : List String → String
  | [] => ""
  | [x] => x
  | x :: y :: xs => x ++ sep ++ joinWith sep (y :: xs)

/-- Model of `str.strip()`: drop whitespace from both ends. -/
def stripStr (s : String) : String :=
  String.mk (((s.data.dropWhile Char.isWhitespace).reverse.dropWhile
    Char.isWhitespace).reverse)

/-! ## Decimal parsing and printing (models of `int(...)`, `float(...)`,
`str(int)`, `str(float)`) -/

/-- The decimal digit character for `d` (meaningful for `d < 10`). -/
def digitChar (d : Nat) : Char := Char.ofNat (48 + d)

/-- Numeric value of a decimal digit character, if it is one. -/
def parseDigit (c : Char) : Option Nat :=
  if '0' ≤ c ∧ c ≤ '9' then some (c.toNat - 48) else none

/-- Accumulating decimal reader: fails on the first non-digit. -/
def parseNatAux (acc : Nat) : List Char → Option Nat
  | [] => some acc
  | c :: cs =>
    match parseDigit c with
    | some d => parseNatAux (acc * 10 + d) cs
    | none => none

/-- Read a non-empty all-digit character list as a natural number. -/
def parseNatDigits : List Char → Option Nat
  | [] => none
  | c :: cs => parseNatAux 0 (c :: cs)

/-- Little-endian decimal digits of `n`, with explicit fuel so that the
definition is structural and kernel-reducible. -/
def natDigitsAux : Nat → Nat → List Nat
  | 0, _ => []
  | _ + 1, 0 => []
  | fuel + 1, n + 1 => ((n + 1) % 10) :: natDigitsAux fuel ((n + 1) / 10)

/-- Little-endian decimal digits of `n` (empty for `0`). -/
def natDigits (n : Nat) : List Nat := natDigitsAux n n

/-- Decimal rendering of a natural number: model of Python `str(nat)`. -/
def natRepr (n : Nat) : String :=
  if n = 0 then "0" else String.mk (((natDigits n).map digitChar).reverse)

/-- Decimal rendering of an integer: model of Python `str(int)`. -/
def intRepr (i : Int) : String :=
  if i < 0 then "-" ++ natRepr i.natAbs else natRepr i.natAbs

/-- Model of Python `int(arg)` on sign-and-digits forms; `none` models a
`ValueError`. -/
def parseInt (s : String) : Option Int :=
  match s.data with
  | [] => none
  | c :: cs =>
    if c = '-' then (parseNatDigits cs).map (fun n => -(Int.ofNat n))
    else if c = '+' then (parseNatDigits cs).map (fun n => Int.ofNat n)
    else (parseNatDigits (c :: cs)).map (fun n => Int.ofNat n)

/-- Value of an optionally-empty digit run (used for the two sides of a
decimal point; `"1."` and `".5"` are both valid Python floats). -/
def parseDigitRun : List Char → Option Nat := parseNatAux 0

/-- Model of the decimal (no-exponent) forms accepted by Python
`float(arg)`, with exact rational semantics. -/
def parseDecimalChars (cs : List Char) : Option Rat :=
  match splitFirst '.' cs with
  | none =>
    if cs.isEmpty then none
    else (parseDigitRun cs).map (fun n => (n : Rat))
  | some (a, b) =>
    if a.isEmpty ∧ b.isEmpty then none
    else
      match parseDigitRun a, parseDigitRun b with
      | some x, some y => some ((x : Rat) + (y : Rat) / (10 : Rat) ^ b.length)
      | _, _ => none

/-- Model of Python `float(arg)`; `none` models a `ValueError`. -/
def parseFloat (s : String) : Option Rat :=
  match s.data with
  | [] => none
  | c :: cs =>
    if c = '-' then (parseDecimalChars cs).map Neg.neg
    else if c = '+' then parseDecimalChars cs
    else parseDecimalChars (c :: cs)

/-- How many times `p` divides `n` (fuel-structural so it reduces in the
kernel); only used to choose the decimal exponent when printing. -/
def pAdicCountAux (p : Nat) : Nat → Nat → Nat
  | 0, _ => 0
  | fuel + 1, n =>
    if p ∣ n ∧ 1 < p ∧ n ≠ 0 then 1 + pAdicCountAux p fuel (n / p) else 0

/-- How many times `p` divides `n`. -/
def pAdicCount (p n : Nat) : Nat := pAdicCountAux p n n

/-- Exactly `m` decimal digit characters of `v` (most significant first,
left-padded with zeros): the fractional part of a float rendering. -/
def natToDigitsPad : Nat → Nat → List Char
  | 0, _ => []
  | m + 1, v => natToDigitsPad m (v / 10) ++ [digitChar (v % 10)]

/-- The number of decimal fraction digits used to render `q`: enough to
clear every factor of `2` and `5` from the denominator, and at least one
(`str(float)` always prints a fractional digit). -/
def floatExp (q : Rat) : Nat :=
  max (max (pAdicCount 2 q.den) (pAdicCount 5 q.den)) 1

/-- Canonical decimal rendering of a float value with exact rational
semantics: model of Python `str(float)` for finite values in the plain
(non-exponent) range.  `none` when `q` has no finite decimal form.
The scaled integer `q.num * (10 ^ e / q.den)` equals `q * 10 ^ e`
exactly when `q.den` divides `10 ^ e`; it is computed with integer
arithmetic only, so the definition evaluates in the kernel. -/
def floatReprOpt (q : Rat) : Option String :=
  if q.den ∣ 10 ^ floatExp q then
    some ((if q.num < 0 then "-" else "") ++
      natRepr ((q.num * ((10 ^ floatExp q / q.den : Nat) : Int)).natAbs /
        10 ^ floatExp q) ++
      "." ++
      String.mk (natToDigitsPad (floatExp q)
        ((q.num * ((10 ^ floatExp q / q.den : Nat) : Int)).natAbs %
          10 ^ floatExp q)))
  else none

/-- Total float rendering (the source only renders values that came from
float literals, which always have finite decimal forms). -/
def floatRepr (q : Rat) : String := (floatReprOpt q).getD ""

/-! ## Data model: argument values, kinds, annotations, parameters
(`types.py` and `inspect.Parameter` as the source uses them) -/

/-- A runtime argument value: the tagged union over the kinds of
`ArgType = Union[str, int, float, bool, Enum, CustomParam]`.
Enum members are identified by their enum class name and member name;
a custom value by its class name and its `to_arg()` token. -/
inductive Value where
  | vstr (s : String)
  | vint (i : Int)
  | vfloat (q : Rat)
  | vbool (b : Bool)
  | venum (ename : String) (name : String)
  | vcustom (cname : String) (arg : String)
deriving DecidableEq

/-- A supported declared parameter type.  A custom kind carries its
`verbose_classname()` and its `from_arg` parser, which per the
`CustomParam` protocol reports validation errors as `BadArg` messages. -/
inductive ArgKind where
  | kstr
  | kint
  | kfloat
  | kbool
  | kenum (ename : String) (variants : List String)
  | kcustom (cname : String) (fromArg : String → Except String Value)

/-- The annotation of a handler parameter: absent (`Parameter.empty`),
one of the supported kinds, or an unrelated class such as `Exception`. -/
inductive Annotation where
  | empty
  | supported (k : ArgKind)
  | unsupported (tyName : String)

/-- One handler parameter after the leading `env` parameter: name,
annotation and optional default (mirror of `inspect.Parameter`). -/
structure Param where
  name : String
  ann : Annotation
  default : Option Value

/-- A user-input error (`BadArg` in `types.py`). -/
inductive BindError where
  | badArg (msg : String)
deriving DecidableEq

/-- A registration-time error (`ImproperlyConfigured` in `types.py`). -/
inductive ConfigError where
  | improperlyConfigured (msg : String)
deriving DecidableEq

/-! ## Argument caster (`CommandBot._cast_arg`) -/

/-- Mirror of `_cast_arg` given the resolved annotation class:
custom classes delegate to `from_arg`; enums look the token up as a
member name; `bool` accepts exactly the lowercased literals
`true`/`false`; `float`/`int` use the decimal parsers; everything else
falls through to `return arg`. -/
def castArg (k : ArgKind) (arg : String) : Except BindError Value :=
  match k with
  | .kcustom _ fromArg =>
    match fromArg arg with
    | .ok v => .ok v
    | .error m => .error (.badArg m)
  | .kenum ename variants =>
    if variants.contains arg then .ok (.venum ename arg)
    else .error (.badArg ("\x27" ++ arg ++ "\x27 is bad param for " ++ ename))
  | .kbool =>
    let a := strToLower arg
    if a = "true" then .ok (.vbool true)
    else if a = "false" then .ok (.vbool false)
    else .error (.badArg ("can\t cast param \x27" ++ arg ++ "\x27 to bool"))
  | .kfloat =>
    match parseFloat arg with
    | some q => .ok (.vfloat q)
    | none => .error (.badArg ("can\x27t cast param \x27" ++ arg ++ "\x27 to float"))
  | .kint =>
    match parseInt arg with
    | some i => .ok (.vint i)
    | none => .error (.badArg ("can\x27t cast param \x27" ++ arg ++ "\x27 to int"))
  | .kstr => .ok (.vstr arg)

/-- `_cast_arg` on a parameter: an empty or unsupported annotation falls
through every `issubclass` test in the source and returns the raw token,
i.e. behaves as `str`. -/
def castParam (p : Param) (arg : String) : Except BindError Value :=
  match p.ann with
  | .supported k => castArg k arg
  | _ => .ok (.vstr arg)

/-! ## Signature validator (`CommandBot._check_args`,
`CommandBot.command`) -/

/-- Python `isinstance(v, k)` for a default value against the declared
(or inferred) class.  `bool` defaults are instances of `int` (Python
`bool` subclasses `int`); `int` defaults are not instances of `float`;
enum and custom instances match on their class name. -/
def isInstance (v : Value) (k : ArgKind) : Bool :=
  match v, k with
  | .vstr _, .kstr => true
  | .vint _, .kint => true
  | .vbool _, .kint => true
  | .vfloat _, .kfloat => true
  | .vbool _, .kbool => true
  | .venum en _, .kenum en2 _ => en = en2
  | .vcustom cn _, .kcustom cn2 _ => cn = cn2
  | _, _ => false

/-- The per-parameter default check at the end of `_check_args`,
with the annotation already resolved (`ann = str` when empty). -/
def checkDefault (name : String) (k : ArgKind) :
    Option Value → Except ConfigError Unit
  | none => .ok ()
  | some d =>
    if isInstance d k then .ok ()
    else .error (.improperlyConfigured
      ("improperly configured: param default " ++ name ++
        " is not instance of declared type"))

/-- One iteration of the `_check_args` loop: an unsupported annotation
is rejected outright; otherwise the default (if any) must be an
instance of the declared class, with `str` inferred when no annotation
is present. -/
def checkParam (p : Param) : Except ConfigError Unit :=
  match p.ann with
  | .unsupported _ => .error (.improperlyConfigured
      ("improperly configured: param type " ++ p.name ++ " is not supported"))
  | .supported k => checkDefault p.name k p.default
  | .empty => checkDefault p.name .kstr p.default

/-- Mirror of `_check_args`: check every parameter in order, stopping at
the first violation. -/
def checkArgs : List Param → Except ConfigError Unit
  | [] => .ok ()
  | p :: ps =>
    match checkParam p with
    | .error e => .error e
    | .ok _ => checkArgs ps

/-- Outcome of running a handler body: a reply string, or an uncaught
exception (identified by a diagnostic string). -/
inductive HandlerOutcome where
  | ret (s : String)
  | exc (e : String)

/-- A registered handler: its parameters after `env`, its docstring,
and its body (invoked with the bound keyword arguments). -/
structure HandlerSpec where
  params : List Param
  doc : String
  body : List (String × Value) → HandlerOutcome

/-- The mutable registration state of a `CommandBot`: the `paths`
registry and the set of command paths wired into `bot.dispatcher`. -/
structure BotState where
  paths : List (String × HandlerSpec)
  dispatcher : List String

/-- Mirror of `CommandBot.command`'s decorator: `_check_args` runs
first; only when it passes is the command appended to `self.paths` and
added to the dispatcher. -/
def command (st : BotState) (path : String) (func : HandlerSpec) :
    Except ConfigError BotState :=
  match checkArgs func.params with
  | .error e => .error e
  | .ok _ => .ok
      { paths := st.paths ++ [(path, func)]
        dispatcher := st.dispatcher ++ [path] }

/-! ## Dict model: Python dicts as association lists with
last-entry-wins lookup -/

/-- Lookup in a dict built by successive insertions: the last entry for
a key wins, exactly as for Python dict literals and `{**a, **b}`. -/
def dget (d : List (String × Value)) (k : String) : Option Value :=
  (d.reverse.find? (fun kv => kv.1 = k)).map (fun kv => kv.2)

/-- Key membership (`k in d`). -/
def dmem (d : List (String × Value)) (k : String) : Bool :=
  d.any (fun kv => kv.1 = k)

/-- The keys of a dict (with repetitions; only used through `dget`). -/
def dkeys (d : List (String × Value)) : List String := d.map (fun kv => kv.1)

/-- Extensional equality of two dicts: the same lookup result on every
key either of them mentions (hence the same key set and values), which
is Python `dict.__eq__` for this representation. -/
def dictEqv (d1 d2 : List (String × Value)) : Bool :=
  (dkeys d1 ++ dkeys d2).all (fun k => dget d1 k = dget d2 k)

/-! ## Binder (`CommandBot._gen_kwargs`, `_gen_kwargs_from_msg`) -/

/-- `arg.split('=', 1)`: one part when there is no `=`, otherwise the
part before the first `=` and everything after it. -/
def splitArg (arg : String) : List String :=
  match splitFirst '=' arg.data with
  | none => [arg]
  | some (a, b) => [String.mk a, String.mk b]

/-- The message of the ordering `BadArg`. -/
def orderingMsg : String :=
  "you can\x27t use positional arguments after key-value arguments"

/-- The `single_or_pair` list of the source: the number of parts of
each token. -/
def singleOrPair (msgArgs : List String) : List Nat :=
  (msgArgs.map splitArg).map List.length

/-- The source's ordering check `sorted(single_or_pair) != single_or_pair`,
rejecting a positional token after a key-value token. -/
def orderViolation (msgArgs : List String) : Bool :=
  decide (List.insertionSort (· ≤ ·) (singleOrPair msgArgs) ≠ singleOrPair msgArgs)

/-- `default_kwargs`: parameters with a declared default, keyed by name. -/
def defaultKwargs (params : List Param) : List (String × Value) :=
  params.filterMap (fun p => p.default.map (fun d => (p.name, d)))

/-- `params_by_name[n]`: Python dict comprehension semantics, so the
last parameter with a given name wins. -/
def paramsByName (params : List Param) (n : String) : Option Param :=
  params.reverse.find? (fun p => p.name = n)

/-- The key-value pairs among the split tokens (`len(kv) == 2`). -/
def namedPairs (msgArgs : List String) : List (String × String) :=
  (msgArgs.map splitArg).filterMap (fun kv =>
    match kv with
    | [k, v] => some (k, v)
    | _ => none)

/-- `kwarg_kwargs`: cast each key-value token against the parameter of
that name, left to right; an unknown name is the `KeyError` turned into
`BadArg`, and cast errors propagate. -/
def buildNamed (params : List Param) :
    List (String × String) → Except BindError (List (String × Value))
  | [] => .ok []
  | (k, v) :: rest =>
    match paramsByName params k with
    | none => .error (.badArg ("no argument with name \x27" ++ k ++ "\x27"))
    | some p =>
      match castParam p v with
      | .error e => .error e
      | .ok val =>
        match buildNamed params rest with
        | .error e => .error e
        | .ok tail => .ok ((k, val) :: tail)

/-- `positional_args`: the tokens before the first key-value token
(`msg_args[:single_or_pair.index(2)]`, the whole list when there is
none). -/
def positionalSlice (msgArgs : List String) : List String :=
  msgArgs.take ((singleOrPair msgArgs).findIdx (fun n => n = 2))

/-- `positional_kwargs`: cast the zipped (parameter, token) pairs left
to right; `zip` silently drops excess tokens and excess parameters. -/
def buildPositional :
    List (Param × String) → Except BindError (List (String × Value))
  | [] => .ok []
  | (p, tok) :: rest =>
    match castParam p tok with
    | .error e => .error e
    | .ok val =>
      match buildPositional rest with
      | .error e => .error e
      | .ok tail => .ok ((p.name, val) :: tail)

/-- The merged dict `{**default_kwargs, **positional_kwargs,
**kwarg_kwargs}` (with the source's evaluation order: named casts run
before positional casts). -/
def mergedKwargs (params : List Param) (msgArgs : List String) :
    Except BindError (List (String × Value)) :=
  match buildNamed params (namedPairs msgArgs) with
  | .error e => .error e
  | .ok kwargKwargs =>
    match buildPositional (params.zip (positionalSlice msgArgs)) with
    | .error e => .error e
    | .ok positionalKwargs =>
      .ok (defaultKwargs params ++ positionalKwargs ++ kwargKwargs)

/-- `_gen_kwargs` after the ordering check: build and merge the three
dicts, then require a value for every declared parameter. -/
def genKwargsRest (params : List Param) (msgArgs : List String) :
    Except BindError (List (String × Value)) :=
  match mergedKwargs params msgArgs with
  | .error e => .error e
  | .ok kwargs =>
    match params.find? (fun p => !(dmem kwargs p.name)) with
    | some p => .error (.badArg ("no value for arg \x27" ++ p.name ++ "\x27"))
    | none => .ok kwargs

/-- Mirror of `CommandBot._gen_kwargs`. -/
def genKwargs (params : List Param) (msgArgs : List String) :
    Except BindError (List (String × Value)) :=
  if orderViolation msgArgs then .error (.badArg orderingMsg)
  else genKwargsRest params msgArgs

/-- Mirror of `CommandBot._gen_kwargs_from_msg`: whitespace-tokenize the
message, drop empties and the leading command token, and bind. -/
def genKwargsFromMsg (params : List Param) (msg : String) :
    Except BindError (List (String × Value)) :=
  genKwargs params (((wsTokens msg).filter (fun a => a ≠ "")).drop 1)

/-! ## Help formatter (`_format_param`, `_format_function_help`,
`_format_help_message`) and the `textwrap` helpers it uses -/

/-- Python `str()` of a value as used for scalar default display:
`str` is itself, numbers render in decimal, booleans as `True`/`False`,
enum members as `Class.name`, dataclass-like customs as
`Class(token)` (the last two are unreachable through the scalar
formatting branches on well-typed registrations). -/
def pyStr (v : Value) : String :=
  match v with
  | .vstr s => s
  | .vint i => intRepr i
  | .vfloat q => floatRepr q
  | .vbool b => if b then "True" else "False"
  | .venum en n => en ++ "." ++ n
  | .vcustom cn a => cn ++ "(" ++ a ++ ")"

/-- `default.name` in the enum formatting branch. -/
def enumNameOf (v : Value) : String :=
  match v with
  | .venum _ n => n
  | _ => pyStr v

/-- `default.to_arg()` in the custom formatting branch. -/
def toArgOf (v : Value) : String :=
  match v with
  | .vcustom _ a => a
  | _ => pyStr v

/-- The scalar branches of `_format_param`:
`f'{name}: {ty}'` plus `f' = {default}'` when a default exists. -/
def scalarParamLine (p : Param) (ty : String) : String :=
  p.name ++ ": " ++ ty ++
    (match p.default with
     | some d => " = " ++ pyStr d
     | none => "")

/-- Mirror of `_format_param`: the `types_to_str` scalar branches, then
the `CustomParam` branch (verbose class name, `to_arg()` default), then
the `Enum` branch (pipe-joined member names, `.name` default), then the
`str` fallthrough for missing or unrelated annotations. -/
def formatParam (p : Param) : String :=
  match p.ann with
  | .supported .kint => scalarParamLine p "int"
  | .supported .kfloat => scalarParamLine p "float"
  | .supported .kstr => scalarParamLine p "str"
  | .supported .kbool => scalarParamLine p "True|False"
  | .supported (.kcustom cname _) =>
    p.name ++ ": " ++ cname ++
      (match p.default with
       | some d => " = " ++ toArgOf d
       | none => "")
  | .supported (.kenum _ variants) =>
    p.name ++ ": " ++ joinWith "|" variants ++
      (match p.default with
       | some d => " = " ++ enumNameOf d
       | none => "")
  | _ => scalarParamLine p "str"

/-- A line consisting solely of whitespace, as `textwrap` classifies it. -/
def blankLine (l : List Char) : Bool := l.all Char.isWhitespace

/-- Model of `textwrap.indent(s, pre)`: prepend `pre` to every line that
does not consist solely of whitespace. -/
def indentStr (s pre : String) : String :=
  joinWith "\n" ((splitOnChar '\n' s.data).map (fun l =>
    if blankLine l then String.mk l else pre ++ String.mk l))

/-- The margin characters `textwrap.dedent` strips: spaces and tabs. -/
def isMarginChar (c : Char) : Bool := c = ' ' ∨ c = '\t'

/-- Longest common prefix of two character lists. -/
def commonPre : List Char → List Char → List Char
  | a :: as, b :: bs => if a = b then a :: commonPre as bs else []
  | _, _ => []

/-- Leading whitespace of one line. -/
def leadingMargin (l : List Char) : List Char := l.takeWhile isMarginChar

/-- Does `l` start with `m`? -/
def leadsWith : List Char → List Char → Bool
  | [], _ => true
  | _ :: _, [] => false
  | a :: as, b :: bs => a = b && leadsWith as bs

/-- Model of `textwrap.dedent(s)`: remove from every line the longest
whitespace margin common to all lines that have content. -/
def dedentStr (s : String) : String :=
  let lines := splitOnChar '\n' s.data
  let margin :=
    match (lines.filter (fun l => !(blankLine l))).map leadingMargin with
    | [] => []
    | m :: ms => ms.foldl commonPre m
  joinWith "\n" (lines.map (fun l =>
    if leadsWith margin l then String.mk (l.drop margin.length)
    else String.mk l))

/-- Mirror of `_format_function_help`: the `/<path>` line, the dedented
and stripped docstring (indented, when non-empty), and the indented
`args:` block (when the parameter list renders to something). -/
def formatFunctionHelp (path : String) (f : HandlerSpec) : String :=
  let doc0 := ["/" ++ path]
  let desc := stripStr (dedentStr f.doc)
  let doc1 := if desc ≠ "" then doc0 ++ [indentStr desc "  "] else doc0
  let sig := joinWith "\n" (f.params.map (fun p => indentStr (formatParam p) "  "))
  let doc2 := if sig ≠ "" then doc1 ++ [indentStr ("args:\n" ++ sig) "  "] else doc1
  joinWith "\n" doc2

/-- Mirror of `_format_help_message`: every command's block joined by a
blank line under `list of commands:`, with the integrator help header
prefixed when non-empty. -/
def formatHelpMessage (helpMessage : String)
    (funcs : List (String × HandlerSpec)) : String :=
  let message := joinWith "\n\n"
    (funcs.map (fun pc => formatFunctionHelp pc.1 pc.2))
  let message := "list of commands:\n" ++ message
  if helpMessage ≠ "" then helpMessage ++ "\n\n" ++ message else message

/-! ## Dispatch wrapper chain (`_command_args`, `_access_log`,
`_log_exception`, `_send_error_message`, `_format_error_message`)

Side effects are modelled as an explicit effect trace.  `bot.send_text`
is parameterized by which chat ids make it raise; a `send` effect
records the attempt whether or not delivery then fails. -/

/-- One observable side effect of a dispatch. -/
inductive Effect where
  | logInfo (msg : String)
  | logError (exc : String)
  | logException (msg : String)
  | send (chat : String) (text : String)
deriving DecidableEq

/-- Mirror of `_format_error_message` (with the `format_exc` callable
already forced to its traceback string). -/
def formatErrorMessage (user message : String) : String :=
  "ERROR: user=" ++ user ++ "\n\n" ++ message

/-- Mirror of `_send_error_message`: attempt one alert per configured
recipient; a failing delivery is logged via `logger.exception` and the
loop continues with the remaining recipients. -/
def sendErrorMessageFx (alertTo : List String) (sendFails : String → Bool)
    (user message : String) : List Effect :=
  (alertTo.map (fun chat =>
    Effect.send chat (formatErrorMessage user message) ::
      (if sendFails chat then
        [Effect.logException "an error while reporting error"]
       else []))).flatten

/-- Mirror of `_log_exception`: `logger.error` then the alert fan-out
with the traceback as the message. -/
def logExceptionFx (alertTo : List String) (sendFails : String → Bool)
    (userAndChat trace : String) : List Effect :=
  Effect.logError trace :: sendErrorMessageFx alertTo sendFails userAndChat trace

/-- Mirror of `_command_args` driven through
`_command_args_decorator`'s `send` lambda: the produced effects plus the
exception (if any) escaping to the caller.  A `BadArg` from binding is
answered with the error plus the command's help; an exception from the
handler body is answered with a generic message and re-raised; a
failing `send_text` raises out of whichever send was attempted. -/
def commandArgsFx (sendFails : String → Bool) (fromChat path : String)
    (handler : HandlerSpec) (message : String) :
    List Effect × Option String :=
  match genKwargsFromMsg handler.params message with
  | .error (.badArg e) =>
    ([Effect.send fromChat (e ++ "\n" ++ formatFunctionHelp path handler)],
      if sendFails fromChat then some "send_text error" else none)
  | .ok kwargs =>
    match handler.body kwargs with
    | .ret s =>
      if sendFails fromChat then
        ([Effect.send fromChat s, Effect.send fromChat "some error occurred"],
          some "send_text error")
      else ([Effect.send fromChat s], none)
    | .exc e =>
      ([Effect.send fromChat "some error occurred"],
        if sendFails fromChat then some "send_text error" else some e)

/-- Mirror of `_access_log`: the pre-invocation access line, the wrapped
handler's effects, `_log_exception` when an exception escapes it, and —
`finally` — the elapsed-time access line.  `elapsed` stands for the
wall-clock measurement, which is outside the model. -/
def accessLogFx (alertTo : List String) (sendFails : String → Bool)
    (userAndChat message elapsed : String)
    (inner : List Effect × Option String) : List Effect :=
  let path :=
    match wsTokens message with
    | [] => "\x7bnot a path\x7d"
    | t :: _ =>
      match t.data with
      | '/' :: _ => t
      | _ => "\x7bnot a path\x7d"
  let accessMsg := "[ACCESS] " ++ userAndChat ++ " " ++ path
  (Effect.logInfo accessMsg :: inner.1 ++
    (match inner.2 with
     | some e => logExceptionFx alertTo sendFails userAndChat e
     | none => [])) ++
    [Effect.logInfo (accessMsg ++ " elapsed=" ++ elapsed ++ "s")]

/-- The full `_decorate` chain for a command with no integrator
decorators: `_access_log_decorator` around `_command_args_decorator`,
with the source's `f'[{user}]@[{chat}]'` log identity. -/
def dispatchFx (alertTo : List String) (sendFails : String → Bool)
    (user fromChat path : String) (handler : HandlerSpec)
    (message elapsed : String) : List Effect :=
  accessLogFx alertTo sendFails ("[" ++ user ++ "]@[" ++ fromChat ++ "]")
    message elapsed (commandArgsFx sendFails fromChat path handler message)

/-! ## Concrete instances from the repository's examples and tests -/

/-- `ExampleEnum` with members `case_one = 1`, `case_two = 2`. -/
def exampleEnumKind : ArgKind := .kenum "ExampleEnum" ["case_one", "case_two"]

/-- The custom type `F` of `tests.py`: an `int`-payload dataclass whose
`from_arg` parses the token as an integer and whose `to_arg` prints it. -/
def customFKind : ArgKind := .kcustom "F" (fun a =>
  match parseInt a with
  | some i => .ok (.vcustom "F" (intRepr i))
  | none => .error ("can\x27t cast " ++ a ++ " to F"))

/-- The five-parameter handler signature of the specification's binding
example: `(int_arg: int, float_arg: float = 1.0, str_arg: str =
"test_str", enum_arg: E = E.case_one, bool_arg: bool = True)`. -/
def exampleParams : List Param :=
  [⟨"int_arg", .supported .kint, none⟩,
   ⟨"float_arg", .supported .kfloat, some (.vfloat 1)⟩,
   ⟨"str_arg", .supported .kstr, some (.vstr "test_str")⟩,
   ⟨"enum_arg", .supported exampleEnumKind, some (.venum "ExampleEnum" "case_one")⟩,
   ⟨"bool_arg", .supported .kbool, some (.vbool true)⟩]

/-- The binding the specification's example expects. -/
def exampleExpected : List (String × Value) :=
  [("int_arg", .vint 1), ("float_arg", .vfloat 0), ("str_arg", .vstr "some"),
   ("enum_arg", .venum "ExampleEnum" "case_two"), ("bool_arg", .vbool false)]

/-- Does binding the given tokens against the example signature produce
exactly the expected mapping? -/
def bindsExpected (msgArgs : List String) : Bool :=
  match genKwargs exampleParams msgArgs with
  | .ok d => dictEqv d exampleExpected
  | .error _ => false

/-- The named-form tokens of the specification's example. -/
def exampleNamedTokens : List String :=
  ["int_arg=1", "float_arg=0", "str_arg=some", "enum_arg=case_two",
   "bool_arg=False"]

/-- The seven-parameter handler `cmd` of `tests.py`. -/
def testCmdParams : List Param :=
  [⟨"int_arg", .supported .kint, none⟩,
   ⟨"float_arg", .supported .kfloat, some (.vfloat 1)⟩,
   ⟨"str_arg", .supported .kstr, some (.vstr "test_str")⟩,
   ⟨"enum_arg", .supported exampleEnumKind, some (.venum "ExampleEnum" "case_one")⟩,
   ⟨"implicit_str_arg", .empty, some (.vstr "test_str")⟩,
   ⟨"bool_arg", .supported .kbool, some (.vbool true)⟩,
   ⟨"custom_arg", .supported customFKind, some (.vcustom "F" "123")⟩]

/-- The registered handler `cmd` of `tests.py`, with its docstring. -/
def testCmdSpec : HandlerSpec :=
  ⟨testCmdParams, "your function help message", fun _ => .ret "your result"⟩

/-- The per-parameter acceptance condition of §4.2 as a predicate: the
annotation (if any) is a supported class, and the default (if any) is
an instance of the declared class (`str` when no annotation). -/
def paramAccepted (p : Param) : Bool :=
  match p.ann with
  | .unsupported _ => false
  | .supported k =>
    match p.default with
    | none => true
    | some d => isInstance d k
  | .empty =>
    match p.default with
    | none => true
    | some d => isInstance d .kstr

/-- The canonical token serialization of a value of a built-in kind
(§4.1): identity for strings, decimal rendering for numbers, Python's
`True`/`False` for booleans, the member name for enum members of that
enum.  `none` for custom kinds, kind/value mismatches, and float values
with no finite decimal form. -/
def serializeValue (k : ArgKind) (v : Value) : Option String :=
  match k, v with
  | .kstr, .vstr s => some s
  | .kint, .vint i => some (intRepr i)
  | .kfloat, .vfloat q => floatReprOpt q
  | .kbool, .vbool b => some (if b then "True" else "False")
  | .kenum ename variants, .venum ename2 n =>
    if ename2 = ename ∧ variants.contains n then some n else none
  | _, _ => none

/-- The type display of §4.4, phrased from the specification's words:
`int`/`float`/`str`/`True|False` for scalars, the pipe-joined variant
names for enums, the verbose class name for customs, `str` for
annotation-free parameters. -/
def typeDisplay : Annotation → String
  | .supported .kint => "int"
  | .supported .kfloat => "float"
  | .supported .kstr => "str"
  | .supported .kbool => "True|False"
  | .supported (.kenum _ variants) => joinWith "|" variants
  | .supported (.kcustom cname _) => cname
  | _ => "str"

/-- The default display of §4.4, phrased from the specification's
words: the literal value for scalars, the variant name for enum
defaults, `to_arg()` for custom defaults. -/
def defaultDisplay (ann : Annotation) (d : Value) : String :=
  match ann with
  | .supported (.kenum _ _) => enumNameOf d
  | .supported (.kcustom _ _) => toArgOf d
  | _ => pyStr d

/-- Is this effect a send (attempt) at all? -/
def isSend (e : Effect) : Bool :=
  match e with
  | .send _ _ => true
  | _ => false

/-- Is this effect a send (attempt) to the given chat? -/
def isSendTo (chat : String) (e : Effect) : Bool :=
  match e with
  | .send c _ => c = chat
  | _ => false

/-- Little-endian value of a digit list. -/
def digitsVal : List Nat → Nat
  | [] => 0
  | d :: ds => d + 10 * digitsVal ds

/-! ## Permutation enumeration (kernel-reducible, with a completeness
lemma, so that claims over "every permutation" can be decided) -/

/-- All ways of inserting `x` into a list. -/
def insertAt (x : α) : List α → List (List α)
  | [] => [[x]]
  | y :: ys => (x :: y :: ys) :: (insertAt x ys).map (fun l => y :: l)

/-- All permutations of a list, by iterated insertion. -/
def allPerms : List α → List (List α)
  | [] => [[]]
  | x :: xs => ((allPerms xs).map (insertAt x)).flatten

theorem mem_insertAt (x : α) (a b : List α) :
    (a ++ x :: b) ∈ insertAt x (a ++ b) := by
  induction a with
  | nil => cases b <;> simp [insertAt]
  | cons y a ih =>
    simp only [List.cons_append, insertAt, List.mem_cons]
    exact Or.inr (List.mem_map.mpr ⟨a ++ x :: b, ih, rfl⟩)

/-- `allPerms` is complete: it contains every permutation. -/
theorem mem_allPerms_of_perm : ∀ l₁ l₂ : List α, l₁.Perm l₂ → l₂ ∈ allPerms l₁ := by
  intro l₁
  induction l₁ with
  | nil => intro l₂ h; simp [allPerms, h.symm.eq_nil]
  | cons x xs ih =>
    intro l₂ h
    have hx : x ∈ l₂ := h.subset (List.mem_cons_self x xs)
    obtain ⟨a, b, rfl⟩ := List.append_of_mem hx
    have h2 : xs.Perm (a ++ b) := (h.trans List.perm_middle).cons_inv
    exact List.mem_flatten.mpr
      ⟨insertAt x (a ++ b), List.mem_map.mpr ⟨a ++ b, ih (a ++ b) h2, rfl⟩,
        mem_insertAt x a b⟩

/-! ## Validator characterization -/

theorem checkParam_ok_iff (p : Param) :
    checkParam p = .ok () ↔ paramAccepted p = true := by
  obtain ⟨name, ann, default⟩ := p
  cases ann with
  | empty =>
    cases default with
    | none => simp [checkParam, paramAccepted, checkDefault]
    | some d =>
      cases hi : isInstance d .kstr <;>
        simp [checkParam, paramAccepted, checkDefault, hi]
  | supported k =>
    cases default with
    | none => simp [checkParam, paramAccepted, checkDefault]
    | some d =>
      cases hi : isInstance d k <;>
        simp [checkParam, paramAccepted, checkDefault, hi]
  | unsupported t => simp [checkParam, paramAccepted]

theorem checkArgs_ok_iff (ps : List Param) :
    checkArgs ps = .ok () ↔ ∀ p ∈ ps, paramAccepted p = true := by
  induction ps with
  | nil => simp [checkArgs]
  | cons p ps ih =>
    constructor
    · intro h q hq
      cases hcp : checkParam p with
      | error e => rw [checkArgs, hcp] at h; exact absurd h (by simp)
      | ok u =>
        rw [checkArgs, hcp] at h
        rcases List.mem_cons.mp hq with rfl | hq2
        · cases u; exact (checkParam_ok_iff q).mp hcp
        · exact ih.mp h q hq2
    · intro h
      have hp : checkParam p = .ok () :=
        (checkParam_ok_iff p).mpr (h p (List.mem_cons_self p ps))
      rw [checkArgs, hp]
      exact ih.mpr (fun q hq => h q (List.mem_cons.mpr (Or.inr hq)))

theorem checkArgs_ok_or_error (ps : List Param) :
    checkArgs ps = .ok () ∨ ∃ e, checkArgs ps = .error e := by
  cases h : checkArgs ps with
  | ok u => exact Or.inl rfl
  | error e => exact Or.inr ⟨e, rfl⟩

/-! ## Dict and binder structure lemmas -/

theorem dmem_append (d1 d2 : List (String × Value)) (k : String) :
    dmem (d1 ++ d2) k = (dmem d1 k || dmem d2 k) := by
  simp [dmem, List.any_append]

theorem dget_append (d1 d2 : List (String × Value)) (k : String) :
    dget (d1 ++ d2) k = (dget d2 k).or (dget d1 k) := by
  rw [dget, dget, dget, List.reverse_append, List.find?_append]
  cases d2.reverse.find? (fun kv => kv.1 = k) <;> simp [Option.or]

theorem dget_of_dmem (d : List (String × Value)) (k : String)
    (h : dmem d k = true) : ∃ v, dget d k = some v := by
  rw [dmem, List.any_eq_true] at h
  obtain ⟨kv, hkv, hk⟩ := h
  have hs : (d.reverse.find? (fun kv => kv.1 = k)).isSome :=
    List.find?_isSome.mpr ⟨kv, List.mem_reverse.mpr hkv, hk⟩
  obtain ⟨x, hx⟩ := Option.isSome_iff_exists.mp hs
  exact ⟨x.2, by rw [dget, hx]; rfl⟩

theorem mergedKwargs_ok_inv (params : List Param) (msgArgs : List String)
    (d : List (String × Value)) (h : mergedKwargs params msgArgs = .ok d) :
    ∃ posKW namedKW,
      buildNamed params (namedPairs msgArgs) = .ok namedKW ∧
      buildPositional (params.zip (positionalSlice msgArgs)) = .ok posKW ∧
      d = defaultKwargs params ++ posKW ++ namedKW := by
  rw [mergedKwargs] at h
  cases hn : buildNamed params (namedPairs msgArgs) with
  | error e => rw [hn] at h; exact absurd h (by simp)
  | ok namedKW =>
    rw [hn] at h
    cases hp : buildPositional (params.zip (positionalSlice msgArgs)) with
    | error e => rw [hp] at h; exact absurd h (by simp)
    | ok posKW =>
      rw [hp] at h
      exact ⟨posKW, namedKW, rfl, rfl, by simpa using h.symm⟩

theorem genKwargs_ok_inv (params : List Param) (msgArgs : List String)
    (d : List (String × Value)) (h : genKwargs params msgArgs = .ok d) :
    orderViolation msgArgs = false ∧
    mergedKwargs params msgArgs = .ok d ∧
    params.find? (fun p => !(dmem d p.name)) = none := by
  rw [genKwargs] at h
  by_cases hv : orderViolation msgArgs
  · rw [if_pos hv] at h; exact absurd h (by simp)
  · rw [if_neg hv] at h
    rw [genKwargsRest] at h
    cases hm : mergedKwargs params msgArgs with
    | error e => rw [hm] at h; exact absurd h (by simp)
    | ok kwargs =>
      rw [hm] at h
      simp only [] at h
      cases hf : params.find? (fun p => !(dmem kwargs p.name)) with
      | some p => rw [hf] at h; exact absurd h (by simp)
      | none =>
        rw [hf] at h
        obtain rfl : kwargs = d := by simpa using h
        exact ⟨by simpa using hv, rfl, hf⟩

theorem defaultKwargs_keys (params : List Param) :
    ∀ kv ∈ defaultKwargs params, ∃ p ∈ params, p.name = kv.1 := by
  intro kv hkv
  rw [defaultKwargs] at hkv
  obtain ⟨p, hp, hmap⟩ := List.mem_filterMap.mp hkv
  cases hd : p.default with
  | none => rw [hd] at hmap; exact absurd hmap (by simp)
  | some d =>
    rw [hd] at hmap
    refine ⟨p, hp, ?_⟩
    have he : (p.name, d) = kv := by simpa using hmap
    rw [← he]

theorem mem_defaultKwargs (params : List Param) (p : Param) (d : Value)
    (hp : p ∈ params) (hd : p.default = some d) :
    (p.name, d) ∈ defaultKwargs params := by
  rw [defaultKwargs]
  exact List.mem_filterMap.mpr ⟨p, hp, by rw [hd]; rfl⟩

theorem buildPositional_keys (l : List (Param × String))
    (r : List (String × Value)) (h : buildPositional l = .ok r) :
    ∀ kv ∈ r, ∃ pt ∈ l, pt.1.name = kv.1 := by
  induction l generalizing r with
  | nil =>
    obtain rfl : ([] : List (String × Value)) = r := by
      simpa [buildPositional] using h
    simp
  | cons pt rest ih =>
    obtain ⟨p, tok⟩ := pt
    rw [buildPositional] at h
    cases hc : castParam p tok with
    | error e => rw [hc] at h; exact absurd h (by simp)
    | ok val =>
      rw [hc] at h
      cases hr : buildPositional rest with
      | error e => rw [hr] at h; exact absurd h (by simp)
      | ok tail =>
        rw [hr] at h
        obtain rfl : (p.name, val) :: tail = r := by simpa using h
        intro kv hkv
        rcases List.mem_cons.mp hkv with rfl | hkv2
        · exact ⟨(p, tok), List.mem_cons_self _ _, rfl⟩
        · obtain ⟨pt2, hpt2, he⟩ := ih tail hr kv hkv2
          exact ⟨pt2, List.mem_cons.mpr (Or.inr hpt2), he⟩

theorem paramsByName_some (params : List Param) (n : String) (p : Param)
    (h : paramsByName params n = some p) : p ∈ params ∧ p.name = n := by
  rw [paramsByName] at h
  have h1 := List.mem_of_find?_eq_some h
  have h2 := List.find?_some h
  simp only [decide_eq_true_eq] at h2
  exact ⟨List.mem_reverse.mp h1, h2⟩

theorem buildNamed_keys (params : List Param) (pairs : List (String × String))
    (r : List (String × Value)) (h : buildNamed params pairs = .ok r) :
    ∀ kv ∈ r, ∃ p ∈ params, p.name = kv.1 := by
  induction pairs generalizing r with
  | nil =>
    obtain rfl : ([] : List (String × Value)) = r := by
      simpa [buildNamed] using h
    simp
  | cons kv0 rest ih =>
    obtain ⟨k, v⟩ := kv0
    rw [buildNamed] at h
    cases hl : paramsByName params k with
    | none => rw [hl] at h; exact absurd h (by simp)
    | some p =>
      rw [hl] at h
      simp only [] at h
      cases hc : castParam p v with
      | error e => rw [hc] at h; exact absurd h (by simp)
      | ok val =>
        rw [hc] at h
        cases hr : buildNamed params rest with
        | error e => rw [hr] at h; exact absurd h (by simp)
        | ok tail =>
          rw [hr] at h
          obtain rfl : (k, val) :: tail = r := by simpa using h
          intro kv hkv
          rcases List.mem_cons.mp hkv with rfl | hkv2
          · obtain ⟨hp, he⟩ := paramsByName_some params k p hl
            exact ⟨p, hp, he⟩
          · exact ih tail hr kv hkv2

theorem findIdx_map (f : α → β) (p : β → Bool) (l : List α) :
    (l.map f).findIdx p = l.findIdx (fun a => p (f a)) := by
  induction l with
  | nil => rfl
  | cons x xs ih => rw [List.map_cons, List.findIdx_cons, List.findIdx_cons, ih]

theorem findIdx_take_all_false (p : α → Bool) (l : List α) :
    ∀ x ∈ l.take (l.findIdx p), p x = false := by
  induction l with
  | nil => simp
  | cons y ys ih =>
    rw [List.findIdx_cons]
    cases hy : p y
    · simp only [cond_false]
      intro x hx
      rw [List.take_succ_cons] at hx
      rcases List.mem_cons.mp hx with rfl | hx2
      · exact hy
      · exact ih x hx2
    · simp

theorem findIdx_drop_cases (p : α → Bool) (l : List α) :
    l.drop (l.findIdx p) = [] ∨
      ∃ x t, l.drop (l.findIdx p) = x :: t ∧ p x = true := by
  induction l with
  | nil => exact Or.inl rfl
  | cons y ys ih =>
    rw [List.findIdx_cons]
    cases hy : p y
    · simp only [cond_false, List.drop_succ_cons]
      exact ih
    · simp only [cond_true, List.drop_zero]
      exact Or.inr ⟨y, ys, rfl, hy⟩

theorem findIdx_append_all_false (p : α → Bool) (xs ys : List α)
    (h : ∀ x ∈ xs, p x = false) :
    (xs ++ ys).findIdx p = xs.length + ys.findIdx p := by
  induction xs with
  | nil => simp
  | cons x t ih =>
    rw [List.cons_append, List.findIdx_cons, h x (List.mem_cons_self x t)]
    simp only [cond_false]
    rw [ih (fun y hy => h y (List.mem_cons.mpr (Or.inr hy))), List.length_cons]
    omega

theorem sorted_ones_append (s1 s2 : List Nat)
    (h1 : ∀ n ∈ s1, n = 1) (h2 : ∀ n ∈ s2, 1 ≤ n) :
    ((s1 ++ s2).Sorted (· ≤ ·) ↔ s2.Sorted (· ≤ ·)) := by
  constructor
  · intro h
    exact (List.pairwise_append.mp h).2.1
  · intro h
    refine List.pairwise_append.mpr ⟨?_, h, ?_⟩
    · rw [List.pairwise_iff_getElem]
      intro i j hi hj hij
      have e1 := h1 _ (s1.getElem_mem hi)
      have e2 := h1 _ (s1.getElem_mem hj)
      omega
    · intro a ha b hb
      have e1 := h1 a ha
      have e2 := h2 b hb
      omega

theorem singleOrPair_eq_map (l : List String) :
    singleOrPair l = l.map (fun a => (splitArg a).length) := by
  rw [singleOrPair, List.map_map]
  rfl

theorem singleOrPair_append (a b : List String) :
    singleOrPair (a ++ b) = singleOrPair a ++ singleOrPair b := by
  rw [singleOrPair_eq_map, singleOrPair_eq_map, singleOrPair_eq_map,
    List.map_append]

theorem namedPairs_append (a b : List String) :
    namedPairs (a ++ b) = namedPairs a ++ namedPairs b := by
  rw [namedPairs, namedPairs, namedPairs, List.map_append,
    List.filterMap_append]

theorem namedPairs_all_single (xs : List String)
    (h : ∀ a ∈ xs, (splitArg a).length = 1) : namedPairs xs = [] := by
  rw [namedPairs, List.filterMap_eq_nil_iff]
  intro kv hkv
  obtain ⟨a, ha, rfl⟩ := List.mem_map.mp hkv
  obtain ⟨x, hx⟩ := List.length_eq_one.mp (h a ha)
  rw [hx]

theorem zip_take_self : ∀ (l1 : List α) (l2 : List β),
    l1.zip l2 = l1.zip (l2.take l1.length)
  | [], _ => rfl
  | _ :: _, [] => rfl
  | x :: t, y :: u => by
    rw [List.length_cons, List.take_succ_cons, List.zip_cons_cons,
      List.zip_cons_cons, zip_take_self t u]

theorem positionalSlice_eq (msgArgs : List String) :
    positionalSlice msgArgs =
      msgArgs.take (msgArgs.findIdx (fun a => (splitArg a).length = 2)) := by
  rw [positionalSlice, singleOrPair_eq_map, findIdx_map]

/-! ## Claim theorems -/

set_option maxRecDepth 8000

/-- C1: for the handler `(int_arg: int, float_arg: float = 1.0,
str_arg: str = "test_str", enum_arg: E = E.case_one, bool_arg: bool =
True)`, binding the body `"1 0 some case_two False"` produces exactly
`{int_arg: 1, float_arg: 0.0, str_arg: "some", enum_arg: E.case_two,
bool_arg: False}`, and binding the named form produces that same
mapping for every permutation of its five named tokens. -/
theorem claim_C1 :
    bindsExpected (wsTokens "1 0 some case_two False") = true ∧
    ∀ l : List String, l.Perm exampleNamedTokens → bindsExpected l = true := by
  refine ⟨by decide, fun l hl => ?_⟩
  have hall : (allPerms exampleNamedTokens).all bindsExpected = true := by decide
  exact List.all_eq_true.mp hall l
    (mem_allPerms_of_perm exampleNamedTokens l hl.symm)

/-- C1 witness: the universally quantified part at one concrete
permutation of the named tokens. -/
theorem claim_C1_witness :
    bindsExpected ["bool_arg=False", "int_arg=1", "float_arg=0",
      "str_arg=some", "enum_arg=case_two"] = true :=
  claim_C1.2 _ (by decide)

/-- C5: registering a handler fails with `ImproperlyConfigured` — and
the command reaches neither the `paths` registry nor the dispatcher,
because `_check_args` runs before both registrations — exactly when
some parameter has an unsupported annotation or a default that is not
an instance of its declared (or inferred `str`) type; a handler whose
parameters all satisfy the rules is appended to both. -/
theorem claim_C5 (st : BotState) (path : String) (f : HandlerSpec) :
    ((∃ p ∈ f.params, paramAccepted p = false) →
      (∃ e, command st path f = .error e) ∧
      ∀ st2, command st path f ≠ .ok st2) ∧
    ((∀ p ∈ f.params, paramAccepted p = true) →
      command st path f = .ok
        { paths := st.paths ++ [(path, f)]
          dispatcher := st.dispatcher ++ [path] }) := by
  constructor
  · rintro ⟨p, hp, hbad⟩
    have hne : checkArgs f.params ≠ .ok () := by
      intro hok
      have := (checkArgs_ok_iff f.params).mp hok p hp
      rw [hbad] at this
      exact absurd this (by simp)
    rcases checkArgs_ok_or_error f.params with hok | ⟨e, he⟩
    · exact absurd hok hne
    · refine ⟨⟨e, ?_⟩, fun st2 h => ?_⟩
      · rw [command, he]
      · rw [command, he] at h; exact absurd h (by simp)
  · intro hall
    rw [command, (checkArgs_ok_iff f.params).mpr hall]

/-- C5 witness: the mistyped-default handler of `tests.py`
(`a: int = '1'`) is rejected and registers nothing. -/
theorem claim_C5_witness :
    (∃ e, command ⟨[], []⟩ "cmd"
        ⟨[⟨"a", .supported .kint, some (.vstr "1")⟩], "", fun _ => .ret ""⟩ =
        .error e) ∧
    ∀ st2, command ⟨[], []⟩ "cmd"
        ⟨[⟨"a", .supported .kint, some (.vstr "1")⟩], "", fun _ => .ret ""⟩ ≠
        .ok st2 :=
  (claim_C5 ⟨[], []⟩ "cmd" _).1
    ⟨⟨"a", .supported .kint, some (.vstr "1")⟩, List.mem_singleton.mpr rfl, rfl⟩

/-- C6: casting a token against a `bool`-annotated parameter yields
`True` exactly when the lowercased token is `"true"`, `False` exactly
when it is `"false"`, and otherwise raises `BadArg`. -/
theorem claim_C6 (arg : String) :
    (castArg .kbool arg = .ok (.vbool true) ↔ strToLower arg = "true") ∧
    (castArg .kbool arg = .ok (.vbool false) ↔ strToLower arg = "false") ∧
    (strToLower arg ≠ "true" → strToLower arg ≠ "false" →
      castArg .kbool arg =
        .error (.badArg ("can\t cast param \x27" ++ arg ++ "\x27 to bool"))) := by
  by_cases h1 : strToLower arg = "true"
  · simp [castArg, h1]
  · by_cases h2 : strToLower arg = "false" <;> simp [castArg, h1, h2]

/-- C6 witness: `"TRUE"` casts to `True`; a non-literal raises. -/
theorem claim_C6_witness :
    castArg .kbool "maybe" =
      .error (.badArg ("can\t cast param \x27maybe\x27 to bool")) :=
  (claim_C6 "maybe").2.2 (by decide) (by decide)

theorem splitArg_length (a : String) :
    (splitArg a).length = 1 ∨ (splitArg a).length = 2 := by
  rw [splitArg]
  cases splitFirst '=' a.data with
  | none => exact Or.inl rfl
  | some p => exact Or.inr rfl

theorem singleOrPair_mem (msgArgs : List String) :
    ∀ n ∈ singleOrPair msgArgs, n = 1 ∨ n = 2 := by
  intro n hn
  rw [singleOrPair] at hn
  obtain ⟨kv, hkv, rfl⟩ := List.mem_map.mp hn
  obtain ⟨a, _, rfl⟩ := List.mem_map.mp hkv
  exact splitArg_length a

theorem orderViolation_eq_false_iff (msgArgs : List String) :
    orderViolation msgArgs = false ↔ (singleOrPair msgArgs).Sorted (· ≤ ·) := by
  rw [orderViolation]
  simp only [decide_eq_false_iff_not, not_not]
  constructor
  · intro h; rw [← h]; exact List.sorted_insertionSort (· ≤ ·) _
  · exact fun h => h.insertionSort_eq

theorem not_sorted_iff_two_before_one (l : List Nat)
    (hl : ∀ n ∈ l, n = 1 ∨ n = 2) :
    (¬ l.Sorted (· ≤ ·)) ↔
      ∃ i j : Nat, i < j ∧ l[i]? = some 2 ∧ l[j]? = some 1 := by
  rw [List.Sorted, List.pairwise_iff_getElem]
  constructor
  · intro h
    push_neg at h
    obtain ⟨i, j, hi, hj, hij, hr⟩ := h
    have hlt : l[j] < l[i] := hr
    have e2 : l[i] = 2 := by
      rcases hl l[i] (l.getElem_mem hi) with e | e <;>
        rcases hl l[j] (l.getElem_mem hj) with e2 | e2 <;> omega
    have e1 : l[j] = 1 := by
      rcases hl l[i] (l.getElem_mem hi) with e | e <;>
        rcases hl l[j] (l.getElem_mem hj) with e2 | e2 <;> omega
    refine ⟨i, j, hij, ?_, ?_⟩
    · rw [List.getElem?_eq_getElem hi, e2]
    · rw [List.getElem?_eq_getElem hj, e1]
  · rintro ⟨i, j, hij, h2, h1⟩ hsorted
    have hi : i < l.length := by
      by_contra hc
      rw [List.getElem?_eq_none (by omega)] at h2
      exact absurd h2 (by simp)
    have hj : j < l.length := by
      by_contra hc
      rw [List.getElem?_eq_none (by omega)] at h1
      exact absurd h1 (by simp)
    have := hsorted i j hi hj hij
    rw [List.getElem?_eq_getElem hi] at h2
    rw [List.getElem?_eq_getElem hj] at h1
    have e2 : l[i] = 2 := by exact Option.some_injective _ h2
    have e1 : l[j] = 1 := by exact Option.some_injective _ h1
    omega

/-- C3: the binder fails with the ordering `BadArg` whenever a
positional (1-part) token follows a named (2-part) token; this
condition is exactly the token-kind sequence failing to be sorted, and
when the kinds are sorted (all positionals first) the ordering check
passes and the binder proceeds. -/
theorem claim_C3 (params : List Param) (msgArgs : List String) :
    ((∃ i j : Nat, i < j ∧ (singleOrPair msgArgs)[i]? = some 2 ∧
        (singleOrPair msgArgs)[j]? = some 1) ↔
      ¬ (singleOrPair msgArgs).Sorted (· ≤ ·)) ∧
    (orderViolation msgArgs = true ↔
      ¬ (singleOrPair msgArgs).Sorted (· ≤ ·)) ∧
    ((∃ i j : Nat, i < j ∧ (singleOrPair msgArgs)[i]? = some 2 ∧
        (singleOrPair msgArgs)[j]? = some 1) →
      genKwargs params msgArgs = .error (.badArg orderingMsg)) ∧
    ((singleOrPair msgArgs).Sorted (· ≤ ·) →
      genKwargs params msgArgs = genKwargsRest params msgArgs) := by
  have hmem := singleOrPair_mem msgArgs
  have hiff := not_sorted_iff_two_before_one (singleOrPair msgArgs) hmem
  have hviol : orderViolation msgArgs = true ↔
      ¬ (singleOrPair msgArgs).Sorted (· ≤ ·) := by
    rw [← orderViolation_eq_false_iff msgArgs]
    cases orderViolation msgArgs <;> simp
  refine ⟨hiff.symm, hviol, fun hex => ?_, fun hsorted => ?_⟩
  · rw [genKwargs, if_pos (hviol.mpr (hiff.mpr hex))]
  · rw [genKwargs,
      if_neg (by rw [Bool.not_eq_true, orderViolation_eq_false_iff]; exact hsorted)]

/-- C3 witness: `a=1` followed by the positional `b` triggers the
ordering error. -/
theorem claim_C3_witness :
    genKwargs [] ["a=1", "b"] = .error (.badArg orderingMsg) :=
  (claim_C3 [] ["a=1", "b"]).2.2.1 ⟨0, 1, by decide, by decide, by decide⟩

theorem genKwargsRest_missing (params : List Param) (msgArgs : List String)
    (m : List (String × Value)) (p : Param)
    (hm : mergedKwargs params msgArgs = .ok m)
    (hf : params.find? (fun q => !(dmem m q.name)) = some p) :
    genKwargsRest params msgArgs =
      .error (.badArg ("no value for arg \x27" ++ p.name ++ "\x27")) := by
  rw [genKwargsRest, hm]
  simp only []
  rw [hf]

/-- C4: a successful binding has a value for every declared parameter
and mentions no undeclared name (so the produced mapping has exactly
one entry per parameter), and when the merged dict misses some
parameter — one with no default and no supplied token — the binder
fails with `BadArg` naming the first such parameter, producing no
partial binding. -/
theorem claim_C4 (params : List Param) (msgArgs : List String) :
    (∀ d, genKwargs params msgArgs = .ok d →
      (∀ p ∈ params, ∃ v, dget d p.name = some v) ∧
      (∀ kv ∈ d, ∃ p ∈ params, p.name = kv.1)) ∧
    (∀ m p, orderViolation msgArgs = false →
      mergedKwargs params msgArgs = .ok m →
      params.find? (fun q => !(dmem m q.name)) = some p →
      p.default = none ∧ dmem m p.name = false ∧
      genKwargs params msgArgs =
        .error (.badArg ("no value for arg \x27" ++ p.name ++ "\x27"))) := by
  constructor
  · intro d hok
    obtain ⟨hv, hm, hf⟩ := genKwargs_ok_inv params msgArgs d hok
    constructor
    · intro p hp
      have hnone := List.find?_eq_none.mp hf p hp
      have hdm : dmem d p.name = true := by
        cases hdm2 : dmem d p.name
        · exact absurd (by rw [hdm2]; rfl) hnone
        · rfl
      exact dget_of_dmem d p.name hdm
    · intro kv hkv
      obtain ⟨posKW, namedKW, hn, hpz, rfl⟩ :=
        mergedKwargs_ok_inv params msgArgs d hm
      rcases List.mem_append.mp hkv with hkv1 | hkv2
      · rcases List.mem_append.mp hkv1 with hkvd | hkvp
        · exact defaultKwargs_keys params kv hkvd
        · obtain ⟨pt, hpt, he⟩ :=
            buildPositional_keys (params.zip (positionalSlice msgArgs))
              posKW hpz kv hkvp
          obtain ⟨p, tok⟩ := pt
          exact ⟨p, (List.of_mem_zip hpt).1, he⟩
      · exact buildNamed_keys params (namedPairs msgArgs) namedKW hn kv hkv2
  · intro m p hv hm hf
    have hp := List.mem_of_find?_eq_some hf
    have hpred := List.find?_some hf
    have hdm : dmem m p.name = false := by
      cases hdm2 : dmem m p.name
      · rfl
      · rw [hdm2] at hpred; exact absurd hpred (by decide)
    refine ⟨?_, hdm, ?_⟩
    · cases hd : p.default with
      | none => rfl
      | some dv =>
        exfalso
        obtain ⟨posKW, namedKW, hn, hpz, rfl⟩ :=
          mergedKwargs_ok_inv params msgArgs m hm
        have hmem := mem_defaultKwargs params p dv hp hd
        have htrue : dmem (defaultKwargs params ++ posKW ++ namedKW) p.name = true := by
          rw [dmem_append, dmem_append]
          have h1 : dmem (defaultKwargs params) p.name = true :=
            List.any_eq_true.mpr ⟨(p.name, dv), hmem, by simp⟩
          simp [h1]
        rw [htrue] at hdm
        exact absurd hdm (by decide)
    · rw [genKwargs, if_neg (by simp [hv])]
      exact genKwargsRest_missing params msgArgs m p hm hf

theorem buildPositional_ok_get (l : List (Param × String))
    (r : List (String × Value)) (h : buildPositional l = .ok r) :
    r.length = l.length ∧
    ∀ i (hi : i < l.length), ∃ v,
      castParam l[i].1 l[i].2 = .ok v ∧ r[i]? = some (l[i].1.name, v) := by
  induction l generalizing r with
  | nil =>
    obtain rfl : ([] : List (String × Value)) = r := by
      simpa [buildPositional] using h
    exact ⟨rfl, fun i hi => absurd hi (by simp)⟩
  | cons pt rest ih =>
    obtain ⟨p, tok⟩ := pt
    rw [buildPositional] at h
    cases hc : castParam p tok with
    | error e => rw [hc] at h; exact absurd h (by simp)
    | ok val =>
      rw [hc] at h
      cases hr : buildPositional rest with
      | error e => rw [hr] at h; exact absurd h (by simp)
      | ok tail =>
        rw [hr] at h
        obtain rfl : (p.name, val) :: tail = r := by simpa using h
        obtain ⟨hlen, hget⟩ := ih tail hr
        refine ⟨by simpa using hlen, ?_⟩
        intro i hi
        cases i with
        | zero => exact ⟨val, by simpa using hc, by simp⟩
        | succ j =>
          obtain ⟨v, hcast, hj⟩ := hget j (by simpa using hi)
          exact ⟨v, by simpa using hcast, by simpa using hj⟩

/-- C2: whenever the binder succeeds, the positional kwargs arise from
casting the i-th positional token against the i-th declared parameter
(a 1:1 zip in declaration order, not skipping any parameter), and the
final mapping looks a key up in named kwargs first, then positional
kwargs, then the defaults — i.e. the merge order is
default < positional < named. -/
theorem claim_C2 (params : List Param) (msgArgs : List String)
    (d : List (String × Value)) (h : genKwargs params msgArgs = .ok d) :
    ∃ posKW namedKW,
      buildPositional (params.zip (positionalSlice msgArgs)) = .ok posKW ∧
      buildNamed params (namedPairs msgArgs) = .ok namedKW ∧
      (∀ i (hi : i < params.length)
        (hj : i < (positionalSlice msgArgs).length),
        ∃ v, castParam params[i] (positionalSlice msgArgs)[i] = .ok v ∧
          posKW[i]? = some (params[i].name, v)) ∧
      (∀ k, dget d k =
        ((dget namedKW k).or
          ((dget posKW k).or (dget (defaultKwargs params) k)))) := by
  obtain ⟨hv, hm, hf⟩ := genKwargs_ok_inv params msgArgs d h
  obtain ⟨posKW, namedKW, hn, hpz, rfl⟩ := mergedKwargs_ok_inv params msgArgs d hm
  refine ⟨posKW, namedKW, hpz, hn, ?_, ?_⟩
  · intro i hi hj
    have hlen : i < (params.zip (positionalSlice msgArgs)).length := by
      rw [List.length_zip]; omega
    obtain ⟨hrl, hget⟩ :=
      buildPositional_ok_get (params.zip (positionalSlice msgArgs)) posKW hpz
    obtain ⟨v, hcast, hr⟩ := hget i hlen
    rw [List.getElem_zip] at hcast hr
    exact ⟨v, hcast, hr⟩
  · intro k
    rw [dget_append, dget_append]

/-- C2 witness: the structural decomposition at the example signature
with the single positional token `"1"`. -/
theorem claim_C2_witness :
    ∃ posKW namedKW,
      buildPositional (exampleParams.zip (positionalSlice ["1"])) = .ok posKW ∧
      buildNamed exampleParams (namedPairs ["1"]) = .ok namedKW ∧
      (∀ i (hi : i < exampleParams.length)
        (hj : i < (positionalSlice ["1"]).length),
        ∃ v, castParam exampleParams[i] (positionalSlice ["1"])[i] = .ok v ∧
          posKW[i]? = some (exampleParams[i].name, v)) ∧
      (∀ k, dget (defaultKwargs exampleParams ++
          [("int_arg", Value.vint 1)] ++ []) k =
        ((dget namedKW k).or
          ((dget posKW k).or (dget (defaultKwargs exampleParams) k)))) :=
  claim_C2 exampleParams ["1"]
    (defaultKwargs exampleParams ++ [("int_arg", Value.vint 1)] ++ []) rfl

theorem eq_of_eq_false_iff (a b : Bool) (h : (a = false ↔ b = false)) :
    a = b := by
  cases a <;> cases b <;> simp at h ⊢

/-- C10: when the positional tokens outnumber the declared parameters,
the excess tokens are silently discarded: the binder behaves exactly as
on the message truncated to the first `params.length` positional tokens
(followed by the unchanged named tokens), and the positional kwargs are
built from only those first tokens. -/
theorem claim_C10 (params : List Param) (msgArgs : List String)
    (h : params.length < (positionalSlice msgArgs).length) :
    genKwargs params msgArgs =
      genKwargs params
        ((positionalSlice msgArgs).take params.length ++
          msgArgs.drop (positionalSlice msgArgs).length) ∧
    buildPositional (params.zip (positionalSlice msgArgs)) =
      buildPositional
        (params.zip ((positionalSlice msgArgs).take params.length)) := by
  have hP := positionalSlice_eq msgArgs
  have hidx_le : msgArgs.findIdx (fun a => (splitArg a).length = 2) ≤
      msgArgs.length := List.findIdx_le_length _
  have hPlen : (positionalSlice msgArgs).length =
      msgArgs.findIdx (fun a => (splitArg a).length = 2) := by
    rw [hP, List.length_take]
    omega
  have hPall : ∀ a ∈ positionalSlice msgArgs, (splitArg a).length = 1 := by
    intro a ha
    rw [hP] at ha
    have hfalse := findIdx_take_all_false
      (fun a => (splitArg a).length = 2) msgArgs a ha
    have hfalse2 : decide ((splitArg a).length = 2) = false := hfalse
    rcases splitArg_length a with h1 | h2
    · exact h1
    · rw [h2] at hfalse2
      exact absurd hfalse2 (by simp)
  have htake_all : ∀ a ∈ (positionalSlice msgArgs).take params.length,
      (splitArg a).length = 1 :=
    fun a ha => hPall a (List.mem_of_mem_take ha)
  have hsplit : (positionalSlice msgArgs) ++
      msgArgs.drop (positionalSlice msgArgs).length = msgArgs := by
    rw [hP, List.length_take, Nat.min_eq_left hidx_le]
    exact List.take_append_drop _ msgArgs
  have hrest_fi : (msgArgs.drop (positionalSlice msgArgs).length).findIdx
      (fun a => (splitArg a).length = 2) = 0 := by
    rw [hPlen]
    rcases findIdx_drop_cases (fun a => (splitArg a).length = 2) msgArgs with
      he | ⟨x, t, he, hx⟩
    · rw [he]
      rfl
    · rw [he, List.findIdx_cons, hx]
      rfl
  have hge : ∀ n ∈ singleOrPair
      (msgArgs.drop (positionalSlice msgArgs).length), 1 ≤ n := by
    intro n hn
    rw [singleOrPair_eq_map] at hn
    obtain ⟨a, _, rfl⟩ := List.mem_map.mp hn
    rcases splitArg_length a with h1 | h2 <;> omega
  have hones1 : ∀ n ∈ singleOrPair (positionalSlice msgArgs), n = 1 := by
    intro n hn
    rw [singleOrPair_eq_map] at hn
    obtain ⟨a, ha, rfl⟩ := List.mem_map.mp hn
    exact hPall a ha
  have hones2 : ∀ n ∈ singleOrPair
      ((positionalSlice msgArgs).take params.length), n = 1 := by
    intro n hn
    rw [singleOrPair_eq_map] at hn
    obtain ⟨a, ha, rfl⟩ := List.mem_map.mp hn
    exact htake_all a ha
  have hsorted : ((singleOrPair msgArgs).Sorted (· ≤ ·) ↔
      (singleOrPair ((positionalSlice msgArgs).take params.length ++
        msgArgs.drop (positionalSlice msgArgs).length)).Sorted (· ≤ ·)) := by
    conv_lhs => rw [← hsplit]
    rw [singleOrPair_append, singleOrPair_append,
      sorted_ones_append _ _ hones1 hge, sorted_ones_append _ _ hones2 hge]
  have hviol : orderViolation msgArgs =
      orderViolation ((positionalSlice msgArgs).take params.length ++
        msgArgs.drop (positionalSlice msgArgs).length) := by
    have hiff : orderViolation msgArgs = false ↔
        orderViolation ((positionalSlice msgArgs).take params.length ++
          msgArgs.drop (positionalSlice msgArgs).length) = false := by
      rw [orderViolation_eq_false_iff, orderViolation_eq_false_iff]
      exact hsorted
    exact eq_of_eq_false_iff _ _ hiff
  have hnamed : namedPairs msgArgs =
      namedPairs ((positionalSlice msgArgs).take params.length ++
        msgArgs.drop (positionalSlice msgArgs).length) := by
    conv_lhs => rw [← hsplit]
    rw [namedPairs_append, namedPairs_append,
      namedPairs_all_single _ hPall, namedPairs_all_single _ htake_all]
  have hPk_len : ((positionalSlice msgArgs).take params.length).length =
      params.length := by
    rw [List.length_take]
    omega
  have hfalse2 : ∀ x ∈ (positionalSlice msgArgs).take params.length,
      (fun a => decide ((splitArg a).length = 2)) x = false := by
    intro x hx
    have := htake_all x hx
    simp [this]
  have hPS : positionalSlice ((positionalSlice msgArgs).take params.length ++
      msgArgs.drop (positionalSlice msgArgs).length) =
      (positionalSlice msgArgs).take params.length := by
    rw [positionalSlice_eq, findIdx_append_all_false _ _ _ hfalse2,
      hrest_fi, hPk_len, Nat.add_zero, List.take_left' hPk_len]
  have hzip : params.zip (positionalSlice msgArgs) =
      params.zip ((positionalSlice msgArgs).take params.length) :=
    zip_take_self params _
  have hmerge : mergedKwargs params msgArgs =
      mergedKwargs params ((positionalSlice msgArgs).take params.length ++
        msgArgs.drop (positionalSlice msgArgs).length) := by
    rw [mergedKwargs, mergedKwargs, hnamed, hPS, ← hzip]
  refine ⟨?_, by rw [hzip]⟩
  rw [genKwargs, genKwargs, hviol]
  by_cases hv : orderViolation ((positionalSlice msgArgs).take params.length ++
      msgArgs.drop (positionalSlice msgArgs).length) = true
  · rw [if_pos hv, if_pos hv]
  · rw [if_neg hv, if_neg hv, genKwargsRest, genKwargsRest, hmerge]

/-- C10 witness: six positional tokens against the five example
parameters: the sixth token is discarded without error. -/
theorem claim_C10_witness :
    genKwargs exampleParams ["1", "0", "some", "case_two", "False", "extra"] =
      genKwargs exampleParams
        ((positionalSlice ["1", "0", "some", "case_two", "False", "extra"]).take
            exampleParams.length ++
          ["1", "0", "some", "case_two", "False", "extra"].drop
            (positionalSlice
              ["1", "0", "some", "case_two", "False", "extra"]).length) ∧
    buildPositional (exampleParams.zip
        (positionalSlice ["1", "0", "some", "case_two", "False", "extra"])) =
      buildPositional (exampleParams.zip
        ((positionalSlice ["1", "0", "some", "case_two", "False", "extra"]).take
          exampleParams.length)) :=
  claim_C10 exampleParams _ (by decide)

/-- C4 witness: binding no tokens against the example signature fails
by naming the required `int_arg`. -/
theorem claim_C4_witness :
    genKwargs exampleParams [] =
      .error (.badArg "no value for arg \x27int_arg\x27") :=
  ((claim_C4 exampleParams []).2
    [("float_arg", .vfloat 1), ("str_arg", .vstr "test_str"),
      ("enum_arg", .venum "ExampleEnum" "case_one"), ("bool_arg", .vbool true)]
    ⟨"int_arg", .supported .kint, none⟩ rfl rfl rfl).2.2

theorem sendErrorMessageFx_sends (alertTo : List String)
    (sendFails : String → Bool) (user msg : String) :
    (sendErrorMessageFx alertTo sendFails user msg).filter isSend =
      alertTo.map (fun chat =>
        Effect.send chat (formatErrorMessage user msg)) := by
  induction alertTo with
  | nil => rfl
  | cons c rest ih =>
    rw [sendErrorMessageFx, List.map_cons, List.flatten_cons,
      List.filter_append]
    rw [sendErrorMessageFx] at ih
    cases hc : sendFails c <;> simp [hc, isSend, ih, List.filter]

theorem sendErrorMessageFx_no_send_to (alertTo : List String)
    (sendFails : String → Bool) (user msg chat : String)
    (h : chat ∉ alertTo) :
    (sendErrorMessageFx alertTo sendFails user msg).filter
      (isSendTo chat) = [] := by
  induction alertTo with
  | nil => rfl
  | cons c rest ih =>
    have hc : c ≠ chat := fun he => h (he ▸ List.mem_cons_self c rest)
    rw [sendErrorMessageFx, List.map_cons, List.flatten_cons,
      List.filter_append]
    rw [sendErrorMessageFx] at ih
    have hrest := ih (fun hm => h (List.mem_cons.mpr (Or.inr hm)))
    cases hfc : sendFails c <;> simp [hfc, isSendTo, hc, hrest, List.filter]

/-- C9: when the handler body raises an unexpected exception (after a
successful binding) and the originating chat's sends succeed, the
dispatch trace is exactly: the pre-invocation access line with the
message's command token, the single generic `some error occurred`
answer to the originating chat, the `logger.error` record, one
`ERROR: user=...` alert attempt per configured recipient (a failed
delivery adds a local log entry and does not stop the remaining
attempts), and — regardless of the failure — the elapsed-time access
line with the same path; the exception never escapes the wrapper, the
alert sends are exactly one per recipient, and the originating chat
receives only the generic message. -/
theorem claim_C9 (alertTo : List String) (sendFails : String → Bool)
    (user fromChat cmdName : String) (handler : HandlerSpec)
    (message elapsed : String) (kwargs : List (String × Value)) (e : String)
    (hbind : genKwargsFromMsg handler.params message = .ok kwargs)
    (hexc : handler.body kwargs = .exc e)
    (hsend : sendFails fromChat = false)
    (hpath : (wsTokens message).head? = some ("/" ++ cmdName))
    (hnoalert : fromChat ∉ alertTo) :
    dispatchFx alertTo sendFails user fromChat cmdName handler
        message elapsed =
      ([Effect.logInfo ("[ACCESS] " ++ ("[" ++ user ++ "]@[" ++ fromChat ++
            "]") ++ " " ++ ("/" ++ cmdName)),
        Effect.send fromChat "some error occurred",
        Effect.logError e] ++
        sendErrorMessageFx alertTo sendFails
          ("[" ++ user ++ "]@[" ++ fromChat ++ "]") e) ++
      [Effect.logInfo ("[ACCESS] " ++ ("[" ++ user ++ "]@[" ++ fromChat ++
          "]") ++ " " ++ ("/" ++ cmdName) ++ " elapsed=" ++ elapsed ++ "s")] ∧
    (sendErrorMessageFx alertTo sendFails
        ("[" ++ user ++ "]@[" ++ fromChat ++ "]") e).filter isSend =
      alertTo.map (fun chat => Effect.send chat
        (formatErrorMessage ("[" ++ user ++ "]@[" ++ fromChat ++ "]") e)) ∧
    (dispatchFx alertTo sendFails user fromChat cmdName handler
        message elapsed).filter (isSendTo fromChat) =
      [Effect.send fromChat "some error occurred"] := by
  obtain ⟨ts, hts⟩ : ∃ ts, wsTokens message = ("/" ++ cmdName) :: ts := by
    cases hw : wsTokens message with
    | nil => rw [hw] at hpath; exact absurd hpath (by simp)
    | cons t ts =>
      rw [hw] at hpath
      simp only [List.head?_cons, Option.some.injEq] at hpath
      exact ⟨ts, by rw [hpath]⟩
  have hdata : ("/" ++ cmdName).data = '/' :: cmdName.data := rfl
  have h1 : dispatchFx alertTo sendFails user fromChat cmdName handler
      message elapsed =
      ([Effect.logInfo ("[ACCESS] " ++ ("[" ++ user ++ "]@[" ++ fromChat ++
            "]") ++ " " ++ ("/" ++ cmdName)),
        Effect.send fromChat "some error occurred",
        Effect.logError e] ++
        sendErrorMessageFx alertTo sendFails
          ("[" ++ user ++ "]@[" ++ fromChat ++ "]") e) ++
      [Effect.logInfo ("[ACCESS] " ++ ("[" ++ user ++ "]@[" ++ fromChat ++
          "]") ++ " " ++ ("/" ++ cmdName) ++ " elapsed=" ++ elapsed ++
          "s")] := by
    rw [dispatchFx, accessLogFx, commandArgsFx, hbind]
    simp only []
    rw [hexc, hts, hsend]
    simp only []
    rw [hdata]
    simp [logExceptionFx]
  refine ⟨h1, sendErrorMessageFx_sends alertTo sendFails _ e, ?_⟩
  rw [h1]
  rw [List.filter_append, List.filter_append]
  rw [sendErrorMessageFx_no_send_to alertTo sendFails _ e fromChat hnoalert]
  simp [isSendTo]

/-- C9 witness: a concrete dispatch with two alert recipients, the
second of which fails to deliver. -/
theorem claim_C9_witness :
    dispatchFx ["a", "b"] (fun c => c = "b") "u1" "chat1" "cmd"
        ⟨[], "", fun _ => .exc "boom"⟩ "/cmd" "0.001" =
      ([Effect.logInfo ("[ACCESS] " ++ ("[" ++ "u1" ++ "]@[" ++ "chat1" ++
            "]") ++ " " ++ ("/" ++ "cmd")),
        Effect.send "chat1" "some error occurred",
        Effect.logError "boom"] ++
        sendErrorMessageFx ["a", "b"] (fun c => c = "b")
          ("[" ++ "u1" ++ "]@[" ++ "chat1" ++ "]") "boom") ++
      [Effect.logInfo ("[ACCESS] " ++ ("[" ++ "u1" ++ "]@[" ++ "chat1" ++
          "]") ++ " " ++ ("/" ++ "cmd") ++ " elapsed=" ++ "0.001" ++ "s")] ∧
    (sendErrorMessageFx ["a", "b"] (fun c => c = "b")
        ("[" ++ "u1" ++ "]@[" ++ "chat1" ++ "]") "boom").filter isSend =
      ["a", "b"].map (fun chat => Effect.send chat
        (formatErrorMessage ("[" ++ "u1" ++ "]@[" ++ "chat1" ++ "]")
          "boom")) ∧
    (dispatchFx ["a", "b"] (fun c => c = "b") "u1" "chat1" "cmd"
        ⟨[], "", fun _ => .exc "boom"⟩ "/cmd" "0.001").filter
      (isSendTo "chat1") =
      [Effect.send "chat1" "some error occurred"] :=
  claim_C9 ["a", "b"] (fun c => c = "b") "u1" "chat1" "cmd"
    ⟨[], "", fun _ => .exc "boom"⟩ "/cmd" "0.001" [] "boom"
    rfl rfl rfl rfl (by decide)

/-! ## Decimal parse/print round-trip lemmas (for C7) -/

theorem parseDigit_digitChar (d : Nat) (h : d < 10) :
    parseDigit (digitChar d) = some d := by
  interval_cases d <;> decide

theorem digitChar_ne_minus (d : Nat) (h : d < 10) : digitChar d ≠ '-' := by
  interval_cases d <;> decide

theorem digitChar_ne_plus (d : Nat) (h : d < 10) : digitChar d ≠ '+' := by
  interval_cases d <;> decide

theorem digitChar_ne_dot (d : Nat) (h : d < 10) : digitChar d ≠ '.' := by
  interval_cases d <;> decide

theorem parseNatAux_append (xs ys : List Char) :
    ∀ acc, parseNatAux acc (xs ++ ys) =
      match parseNatAux acc xs with
      | some a => parseNatAux a ys
      | none => none := by
  induction xs with
  | nil => intro acc; rfl
  | cons c t ih =>
    intro acc
    simp only [List.cons_append, parseNatAux]
    cases hpc : parseDigit c with
    | none => rfl
    | some d => exact ih (acc * 10 + d)

theorem natDigitsAux_val : ∀ fuel n, n ≤ fuel →
    digitsVal (natDigitsAux fuel n) = n := by
  intro fuel
  induction fuel with
  | zero => intro n hn; interval_cases n; rfl
  | succ f ih =>
    intro n hn
    cases n with
    | zero => rfl
    | succ m =>
      rw [natDigitsAux, digitsVal, ih ((m + 1) / 10) (by omega)]
      omega

theorem natDigitsAux_lt : ∀ fuel n, ∀ d ∈ natDigitsAux fuel n, d < 10 := by
  intro fuel
  induction fuel with
  | zero => intro n d hd; exact absurd hd (by simp [natDigitsAux])
  | succ f ih =>
    intro n d hd
    cases n with
    | zero => exact absurd hd (by simp [natDigitsAux])
    | succ m =>
      rw [natDigitsAux] at hd
      rcases List.mem_cons.mp hd with rfl | hd2
      · omega
      · exact ih _ d hd2

theorem natDigitsAux_ne_nil (fuel n : Nat) (hn : 0 < n) (hf : n ≤ fuel) :
    natDigitsAux fuel n ≠ [] := by
  cases fuel with
  | zero => omega
  | succ f =>
    cases n with
    | zero => omega
    | succ m => rw [natDigitsAux]; exact List.cons_ne_nil _ _

theorem parseNatAux_rev_digits (L : List Nat) (hL : ∀ d ∈ L, d < 10) :
    ∀ acc, parseNatAux acc ((L.map digitChar).reverse) =
      some (acc * 10 ^ L.length + digitsVal L) := by
  induction L with
  | nil => intro acc; simp [parseNatAux, digitsVal]
  | cons d L ih =>
    intro acc
    rw [List.map_cons, List.reverse_cons, parseNatAux_append]
    rw [ih (fun x hx => hL x (List.mem_cons.mpr (Or.inr hx)))]
    simp only [parseNatAux,
      parseDigit_digitChar d (hL d (List.mem_cons_self d L)),
      Option.some.injEq, List.length_cons, digitsVal]
    ring

theorem natRepr_data (n : Nat) (hn : n ≠ 0) :
    (natRepr n).data = ((natDigits n).map digitChar).reverse := by
  rw [natRepr, if_neg hn]

theorem natDigits_val (n : Nat) : digitsVal (natDigits n) = n :=
  natDigitsAux_val n n (Nat.le_refl n)

theorem parseNatAux_natRepr (n : Nat) :
    parseNatAux 0 (natRepr n).data = some n := by
  by_cases hn : n = 0
  · subst hn; rfl
  · rw [natRepr_data n hn,
      parseNatAux_rev_digits (natDigits n) (natDigitsAux_lt n n) 0,
      natDigits_val n]
    simp

theorem natRepr_head (n : Nat) :
    ∃ c cs d, (natRepr n).data = c :: cs ∧ d < 10 ∧ c = digitChar d := by
  by_cases hn : n = 0
  · exact ⟨'0', [], 0, by rw [hn]; rfl, by omega, rfl⟩
  · rw [natRepr_data n hn]
    have hne : ((natDigits n).map digitChar).reverse ≠ [] := by
      simp only [ne_eq, List.reverse_eq_nil_iff, List.map_eq_nil_iff]
      exact natDigitsAux_ne_nil n n (by omega) (Nat.le_refl n)
    cases hl : ((natDigits n).map digitChar).reverse with
    | nil => exact absurd hl hne
    | cons c cs =>
      have hc : c ∈ ((natDigits n).map digitChar).reverse := by
        rw [hl]; exact List.mem_cons_self c cs
      rw [List.mem_reverse] at hc
      obtain ⟨d, hd, rfl⟩ := List.mem_map.mp hc
      exact ⟨digitChar d, cs, d, rfl, natDigitsAux_lt n n d hd, rfl⟩

theorem natRepr_all_digits (n : Nat) :
    ∀ c ∈ (natRepr n).data, ∃ d, d < 10 ∧ c = digitChar d := by
  intro c hc
  by_cases hn : n = 0
  · subst hn
    rcases List.mem_singleton.mp hc with rfl
    exact ⟨0, by omega, rfl⟩
  · rw [natRepr_data n hn, List.mem_reverse] at hc
    obtain ⟨d, hd, rfl⟩ := List.mem_map.mp hc
    exact ⟨d, natDigitsAux_lt n n d hd, rfl⟩

theorem parseInt_intRepr (i : Int) : parseInt (intRepr i) = some i := by
  by_cases hi : i < 0
  · rw [intRepr, if_pos hi]
    have hdata : (("-" : String) ++ natRepr i.natAbs).data =
        '-' :: (natRepr i.natAbs).data := rfl
    rw [parseInt, hdata]
    simp only []
    rw [if_pos trivial]
    obtain ⟨c, cs, d, hc, hd, rfl⟩ := natRepr_head i.natAbs
    rw [hc, parseNatDigits, ← hc, parseNatAux_natRepr i.natAbs]
    rw [Option.map_some', Option.some.injEq, Int.ofNat_eq_coe]
    omega
  · rw [intRepr, if_neg hi]
    obtain ⟨c, cs, d, hc, hd, rfl⟩ := natRepr_head i.natAbs
    rw [parseInt, hc]
    simp only []
    rw [if_neg (digitChar_ne_minus d hd), if_neg (digitChar_ne_plus d hd)]
    rw [parseNatDigits, ← hc, parseNatAux_natRepr i.natAbs]
    rw [Option.map_some', Option.some.injEq, Int.ofNat_eq_coe]
    omega

theorem natToDigitsPad_length (m : Nat) : ∀ v, (natToDigitsPad m v).length = m := by
  induction m with
  | zero => intro v; rfl
  | succ k ih =>
    intro v
    rw [natToDigitsPad, List.length_append, ih (v / 10)]
    rfl

theorem parseNatAux_pad (m : Nat) : ∀ v acc,
    parseNatAux acc (natToDigitsPad m v) =
      some (acc * 10 ^ m + v % 10 ^ m) := by
  induction m with
  | zero => intro v acc; simp [natToDigitsPad, parseNatAux, Nat.mod_one]
  | succ k ih =>
    intro v acc
    rw [natToDigitsPad, parseNatAux_append, ih (v / 10) acc]
    simp only [parseNatAux,
      parseDigit_digitChar (v % 10) (Nat.mod_lt v (by omega)),
      Option.some.injEq]
    have h1 : (10 : Nat) ^ (k + 1) = 10 * 10 ^ k := by ring
    rw [h1, Nat.mod_mul]
    ring

theorem splitFirst_append (c : Char) (xs ys : List Char) (h : c ∉ xs) :
    splitFirst c (xs ++ c :: ys) = some (xs, ys) := by
  induction xs with
  | nil => simp [splitFirst]
  | cons x t ih =>
    have hx : x ≠ c := fun he => h (he ▸ List.mem_cons_self x t)
    rw [List.cons_append, splitFirst, if_neg hx,
      ih (fun hm => h (List.mem_cons.mpr (Or.inr hm)))]
    rfl

theorem natRepr_no_dot (n : Nat) : ('.' : Char) ∉ (natRepr n).data := by
  intro hc
  obtain ⟨d, hd, he⟩ := natRepr_all_digits n '.' hc
  exact digitChar_ne_dot d hd he.symm

theorem parseDecimalChars_parts (ip m fr : Nat) (hfr : fr < 10 ^ m) :
    parseDecimalChars ((natRepr ip).data ++ '.' :: natToDigitsPad m fr) =
      some ((ip : Rat) + (fr : Rat) / (10 : Rat) ^ m) := by
  rw [parseDecimalChars, splitFirst_append '.' _ _ (natRepr_no_dot ip)]
  simp only []
  obtain ⟨c, cs, d, hc, hd, hcd⟩ := natRepr_head ip
  have hne : ((natRepr ip).data).isEmpty = false := by rw [hc]; rfl
  rw [if_neg (by simp [hne])]
  have ha : parseDigitRun ((natRepr ip).data) = some ip := parseNatAux_natRepr ip
  have hb : parseDigitRun (natToDigitsPad m fr) = some fr := by
    have hp := parseNatAux_pad m fr 0
    rw [Nat.mod_eq_of_lt hfr] at hp
    simpa using hp
  rw [ha, hb]
  simp only []
  rw [natToDigitsPad_length]

theorem strData_append (a b : String) : (a ++ b).data = a.data ++ b.data := rfl

theorem parseFloat_render (q : Rat) (m : Nat) (hden : q.den ∣ 10 ^ m) :
    parseFloat ((if q.num < 0 then "-" else "") ++
      natRepr ((q.num * ((10 ^ m / q.den : Nat) : Int)).natAbs / 10 ^ m) ++
      "." ++
      String.mk (natToDigitsPad m
        ((q.num * ((10 ^ m / q.den : Nat) : Int)).natAbs % 10 ^ m))) =
      some q := by
  have hdpos : 0 < q.den := q.pos
  obtain ⟨k, hkdef⟩ : ∃ k, (10 ^ m / q.den : Nat) = k := ⟨_, rfl⟩
  rw [hkdef]
  have hk : q.den * k = 10 ^ m := by
    rw [← hkdef]
    exact Nat.mul_div_cancel' hden
  have hkpos : 0 < k := by
    rw [← hkdef]
    exact Nat.div_pos (Nat.le_of_dvd (by positivity) hden) hdpos
  have h10 : ((10 : Rat) ^ m) ≠ 0 := pow_ne_zero m (by norm_num)
  have hden0 : ((q.den : Rat)) ≠ 0 := Nat.cast_ne_zero.mpr (by omega)
  have hqden := Rat.num_div_den q
  rw [div_eq_iff hden0] at hqden
  have hkr : ((10 : Rat) ^ m) = (q.den : Rat) * (k : Rat) := by
    exact_mod_cast hk.symm
  have hbridge : ((q.num * (k : Int) : Int) : Rat) = q * (10 : Rat) ^ m := by
    push_cast
    rw [hqden, hkr]
    ring
  have hfr : (q.num * (k : Int)).natAbs % 10 ^ m < 10 ^ m :=
    Nat.mod_lt _ (Nat.pos_pow_of_pos m (by omega))
  have hval : (((q.num * (k : Int)).natAbs / 10 ^ m : Nat) : Rat) +
      (((q.num * (k : Int)).natAbs % 10 ^ m : Nat) : Rat) / (10 : Rat) ^ m =
      ((q.num * (k : Int)).natAbs : Rat) / (10 : Rat) ^ m := by
    have hdm : 10 ^ m * ((q.num * (k : Int)).natAbs / 10 ^ m) +
        (q.num * (k : Int)).natAbs % 10 ^ m =
        (q.num * (k : Int)).natAbs := Nat.div_add_mod _ _
    have hcast : ((q.num * (k : Int)).natAbs : Rat) =
        (((q.num * (k : Int)).natAbs / 10 ^ m : Nat) : Rat) *
          (10 : Rat) ^ m +
        (((q.num * (k : Int)).natAbs % 10 ^ m : Nat) : Rat) := by
      conv_lhs => rw [← hdm]
      push_cast
      ring
    rw [hcast, add_div, mul_div_cancel_right₀ _ h10]
  by_cases hq : q.num < 0
  · rw [if_pos hq]
    have hstr : (("-" ++ natRepr ((q.num * (k : Int)).natAbs / 10 ^ m) ++
        "." ++
        String.mk (natToDigitsPad m
          ((q.num * (k : Int)).natAbs % 10 ^ m))).data) =
        '-' :: ((natRepr ((q.num * (k : Int)).natAbs / 10 ^ m)).data ++
          '.' :: natToDigitsPad m ((q.num * (k : Int)).natAbs % 10 ^ m)) := by
      rw [strData_append, strData_append, strData_append]
      simp
    rw [parseFloat, hstr]
    simp only []
    rw [if_pos trivial, parseDecimalChars_parts _ m _ hfr, hval]
    have hA : q.num * (k : Int) < 0 :=
      mul_neg_of_neg_of_pos hq (by exact_mod_cast hkpos)
    have hna : (((q.num * (k : Int)).natAbs : Nat) : Rat) =
        -((q.num * (k : Int) : Int) : Rat) := by
      push_cast [Int.cast_natAbs]
      rw [abs_of_neg (by exact_mod_cast hA)]
    rw [Option.map_some']
    congr 1
    rw [hna, hbridge]
    field_simp
  · rw [if_neg hq]
    obtain ⟨c, cs, d, hc, hd, hcd⟩ :=
      natRepr_head ((q.num * (k : Int)).natAbs / 10 ^ m)
    have hstr : ((("" : String) ++
        natRepr ((q.num * (k : Int)).natAbs / 10 ^ m) ++ "." ++
        String.mk (natToDigitsPad m
          ((q.num * (k : Int)).natAbs % 10 ^ m))).data) =
        c :: (cs ++ '.' :: natToDigitsPad m
          ((q.num * (k : Int)).natAbs % 10 ^ m)) := by
      rw [strData_append, strData_append, strData_append, hc]
      simp
    rw [parseFloat, hstr]
    simp only []
    rw [if_neg (hcd ▸ digitChar_ne_minus d hd),
      if_neg (hcd ▸ digitChar_ne_plus d hd)]
    rw [← List.cons_append, ← hc, parseDecimalChars_parts _ m _ hfr, hval]
    have hA : (0 : Int) ≤ q.num * (k : Int) :=
      mul_nonneg (not_lt.mp hq) (by positivity)
    have hna : (((q.num * (k : Int)).natAbs : Nat) : Rat) =
        ((q.num * (k : Int) : Int) : Rat) := by
      push_cast [Int.cast_natAbs]
      rw [abs_of_nonneg (by exact_mod_cast hA)]
    rw [hna, hbridge]
    congr 1
    field_simp

theorem parseFloat_floatReprOpt (q : Rat) (s : String)
    (h : floatReprOpt q = some s) : parseFloat s = some q := by
  rw [floatReprOpt] at h
  by_cases hden : q.den ∣ 10 ^ floatExp q
  · rw [if_pos hden] at h
    obtain rfl := Option.some.inj h
    exact parseFloat_render q (floatExp q) hden
  · rw [if_neg hden] at h
    exact absurd h (by simp)

/-- C7: for every built-in kind (string, integer, float, boolean,
enum), casting a value's canonical token serialization against a
parameter of that kind returns exactly that value:
`cast(serialize(v)) = v`. -/
theorem claim_C7 (k : ArgKind) (v : Value) (s : String)
    (h : serializeValue k v = some s) : castArg k s = .ok v := by
  cases k <;> cases v <;>
    try (refine absurd h ?_; simp [serializeValue]; done)
  case kstr.vstr s0 =>
    obtain rfl := Option.some.inj h
    rfl
  case kint.vint i =>
    obtain rfl := Option.some.inj h
    simp [castArg, parseInt_intRepr i]
  case kfloat.vfloat q =>
    rw [castArg, parseFloat_floatReprOpt q s h]
  case kbool.vbool b =>
    cases b
    · obtain rfl := Option.some.inj h
      rfl
    · obtain rfl := Option.some.inj h
      rfl
  case kenum.venum en vs en2 n =>
    simp only [serializeValue] at h
    by_cases hc : en2 = en ∧ vs.contains n
    · obtain ⟨heq, hcont⟩ := hc
      subst heq
      rw [if_pos ⟨rfl, hcont⟩] at h
      obtain rfl := Option.some.inj h
      rw [castArg, if_pos hcont]
    · rw [if_neg hc] at h
      exact absurd h (by simp)

/-- C7 witness: the integer 5 round-trips through its decimal token. -/
theorem claim_C7_witness : castArg .kint "5" = .ok (.vint 5) :=
  claim_C7 .kint (.vint 5) "5" (by decide)

/-- C8: help rendering is deterministic and structured as specified:
every parameter line is `name: type-display` with ` = default-display`
exactly when a default exists (type and default displays per kind);
a handler block is the `/path` line, the trimmed docstring (indented,
when non-empty) and the indented `args:` block with one line per
parameter in declaration order; the bot-wide help joins command blocks
with a blank line under `list of commands:`, prefixed by the help
header when non-empty.  The seven-parameter test handler reproduces
the repository's golden strings byte for byte. -/
theorem claim_C8 :
    (∀ p : Param, formatParam p =
      p.name ++ ": " ++ typeDisplay p.ann ++
        (match p.default with
         | none => ""
         | some d => " = " ++ defaultDisplay p.ann d)) ∧
    (∀ (path : String) (f : HandlerSpec),
      formatFunctionHelp path f =
        joinWith "\n"
          ((["/" ++ path] ++
            (if stripStr (dedentStr f.doc) ≠ "" then
              [indentStr (stripStr (dedentStr f.doc)) "  "]
             else [])) ++
            (if joinWith "\n"
                (f.params.map (fun p => indentStr (formatParam p) "  ")) ≠ ""
             then
              [indentStr ("args:\n" ++ joinWith "\n"
                (f.params.map (fun p => indentStr (formatParam p) "  ")))
                "  "]
             else []))) ∧
    (∀ (hm : String) (funcs : List (String × HandlerSpec)), hm ≠ "" →
      formatHelpMessage hm funcs =
        hm ++ "\n\n" ++ ("list of commands:\n" ++
          joinWith "\n\n"
            (funcs.map (fun pc => formatFunctionHelp pc.1 pc.2)))) ∧
    (∀ funcs : List (String × HandlerSpec),
      formatHelpMessage "" funcs =
        "list of commands:\n" ++ joinWith "\n\n"
          (funcs.map (fun pc => formatFunctionHelp pc.1 pc.2))) ∧
    formatFunctionHelp "cmd" testCmdSpec = "/cmd\n  your function help message\n  args:\n    int_arg: int\n    float_arg: float = 1.0\n    str_arg: str = test_str\n    enum_arg: case_one|case_two = case_one\n    implicit_str_arg: str = test_str\n    bool_arg: True|False = True\n    custom_arg: F = 123" ∧
    formatHelpMessage "my help msg"
        [("cmd", testCmdSpec), ("cmd_alias", testCmdSpec)] = "my help msg\n\nlist of commands:\n/cmd\n  your function help message\n  args:\n    int_arg: int\n    float_arg: float = 1.0\n    str_arg: str = test_str\n    enum_arg: case_one|case_two = case_one\n    implicit_str_arg: str = test_str\n    bool_arg: True|False = True\n    custom_arg: F = 123\n\n/cmd_alias\n  your function help message\n  args:\n    int_arg: int\n    float_arg: float = 1.0\n    str_arg: str = test_str\n    enum_arg: case_one|case_two = case_one\n    implicit_str_arg: str = test_str\n    bool_arg: True|False = True\n    custom_arg: F = 123" := by
  refine ⟨?_, ?_, ?_, ?_, by decide, by decide⟩
  · intro p
    obtain ⟨n, ann, default⟩ := p
    cases ann with
    | supported k => cases k <;> cases default <;> rfl
    | empty => cases default <;> rfl
    | unsupported t => cases default <;> rfl
  · intro path f
    rw [formatFunctionHelp]
    by_cases h1 : stripStr (dedentStr f.doc) ≠ "" <;>
      by_cases h2 : joinWith "\n"
        (f.params.map (fun p => indentStr (formatParam p) "  ")) ≠ "" <;>
      simp [h1, h2]
  · intro hm funcs hne
    rw [formatHelpMessage, if_pos hne]
  · intro funcs
    rw [formatHelpMessage, if_neg (by simp)]

/-- C8 witness: the non-empty-header equation at a concrete header. -/
theorem claim_C8_witness :
    formatHelpMessage "hdr" [] =
      "hdr" ++ "\n\n" ++ ("list of commands:\n" ++
        joinWith "\n\n"
          (([] : List (String × HandlerSpec)).map
            (fun pc => formatFunctionHelp pc.1 pc.2))) :=
  claim_C8.2.2.1 "hdr" [] (by decide)

end CommandBot
